import Mathlib

/-!
Verification of the inference-go normalization engine against its
specification.  The Go sources are shallowly embedded: Go strings become
`String`, Go slices become `List`, Go pointers become `Option`, Go `int`
arithmetic on token budgets becomes `Int`/`Nat` arithmetic.  Every
definition mirrors a named function of the repository; deviations are
noted in the doc comments.
-/

namespace Spec2Proof

/-! ## Go string helpers

`strings.TrimSpace` trims Unicode white space from both ends.  We model the
character class by the ASCII white-space characters plus NEL and NBSP,
which is what `unicode.IsSpace` accepts in the Latin-1 range. -/

def goIsSpace (c : Char) : Bool :=
  c = ' ' || c = '\t' || c = '\n' || c = '\x0b' || c = '\x0c' || c = '\r' ||
  c = '\x85' || c = '\xa0'

def goTrimSpace (s : String) : String :=
  String.mk (((s.data.dropWhile goIsSpace).reverse.dropWhile goIsSpace).reverse)

/-- Go `strings.ToLower` (per-character lowering, character-list based). -/
def goToLower (s : String) : String :=
  String.mk (s.data.map Char.toLower)

/-- Go `strings.HasSuffix` (character-list based). -/
def goHasSuffix (s suffix : String) : Bool :=
  suffix.data.isSuffixOf s.data

/-- Go regexp `\w` class: ASCII word characters. -/
def goIsWordChar (c : Char) : Bool :=
  ('a' ≤ c && c ≤ 'z') || ('A' ≤ c && c ≤ 'Z') || ('0' ≤ c && c ≤ '9') || c = '_'

/-- Go regexp `\s` class: `[\t\n\f\r ]`. -/
def goIsRegexSpace (c : Char) : Bool :=
  c = '\t' || c = '\n' || c = '\x0c' || c = '\r' || c = ' '

/-- Number of matches of the Go regexp `\w+|[^\s\w]`: maximal word runs count
one each, and every character that is neither white space nor a word
character counts one.  `inWord` records whether the previous character was a
word character. -/
def countRegexMatches : List Char → Bool → Nat
  | [], _ => 0
  | c :: cs, inWord =>
    if goIsWordChar c then
      (if inWord then 0 else 1) + countRegexMatches cs true
    else if goIsRegexSpace c then
      countRegexMatches cs false
    else
      1 + countRegexMatches cs false

/-! ## Canonical data model (`spec` package)

Only the fields that the verified functions read are modelled; tags such as
roles, statuses and kinds are Go string types and are kept as `String`
except for the union discriminators, which are finite enumerations in the
source. -/

def roleUser : String := "user"

def roleAssistant : String := "assistant"

inductive InputKind where
  | inputMessage
  | outputMessage
  | reasoningMessage
  | functionToolCall
  | customToolCall
  | webSearchToolCall
  | functionToolOutput
  | customToolOutput
  | webSearchToolOutput
deriving DecidableEq, Repr

inductive ContentItemKind where
  | text
  | image
  | file
  | refusal
deriving DecidableEq, Repr

inductive ToolType where
  | function
  | custom
  | webSearch
deriving DecidableEq, Repr

structure URLCitation where
  url : String := ""
  title : String := ""
  startIndex : Int := 0
  endIndex : Int := 0
deriving DecidableEq, Repr

structure Citation where
  urlCitation : Option URLCitation := none
deriving DecidableEq, Repr

structure ContentItemText where
  text : String := ""
  citations : List Citation := []
deriving DecidableEq, Repr

structure ContentItemImage where
  id : String := ""
  imageName : String := ""
  imageData : String := ""
  imageURL : String := ""
  imageMIME : String := ""
  detail : String := ""
deriving DecidableEq, Repr

structure ContentItemFile where
  id : String := ""
  fileName : String := ""
  fileData : String := ""
  fileURL : String := ""
  fileMIME : String := ""
  additionalContext : String := ""
deriving DecidableEq, Repr

structure ContentItemRefusal where
  refusal : String := ""
deriving DecidableEq, Repr

structure ContentItem where
  kind : ContentItemKind
  textItem : Option ContentItemText := none
  imageItem : Option ContentItemImage := none
  fileItem : Option ContentItemFile := none
  refusalItem : Option ContentItemRefusal := none
deriving DecidableEq, Repr

structure InputOutputContent where
  id : String := ""
  role : String := ""
  status : String := ""
  contents : List ContentItem := []
deriving DecidableEq, Repr

structure ReasoningContent where
  id : String := ""
  role : String := ""
  status : String := ""
  signature : String := ""
  thinking : List String := []
  redactedThinking : List String := []
  encryptedContent : List String := []
  summary : List String := []
deriving DecidableEq, Repr

structure WebSearchSource where
  url : String := ""
deriving DecidableEq, Repr

structure WebSearchCallSearchItem where
  query : String := ""
  sources : List WebSearchSource := []
deriving DecidableEq, Repr

structure WebSearchCallOpenPageItem where
  url : String := ""
deriving DecidableEq, Repr

structure WebSearchCallFindItem where
  pattern : String := ""
  url : String := ""
deriving DecidableEq, Repr

inductive WebSearchToolCallKind where
  | search
  | openPage
  | find
deriving DecidableEq, Repr

structure WebSearchToolCallItem where
  kind : WebSearchToolCallKind
  searchItem : Option WebSearchCallSearchItem := none
  openPageItem : Option WebSearchCallOpenPageItem := none
  findItem : Option WebSearchCallFindItem := none
deriving DecidableEq, Repr

structure ToolCall where
  choiceId : String := ""
  type : ToolType := ToolType.function
  role : String := ""
  id : String := ""
  callId : String := ""
  name : String := ""
  arguments : String := ""
  status : String := ""
  webSearchToolCallItems : List WebSearchToolCallItem := []
deriving DecidableEq, Repr

structure WebSearchOutputSearchItem where
  title : String := ""
  renderedContent : String := ""
deriving DecidableEq, Repr

inductive WebSearchToolOutputKind where
  | search
  | error
deriving DecidableEq, Repr

structure WebSearchToolOutputItem where
  kind : WebSearchToolOutputKind
  searchItem : Option WebSearchOutputSearchItem := none
deriving DecidableEq, Repr

structure ToolOutput where
  choiceId : String := ""
  type : ToolType := ToolType.function
  id : String := ""
  callId : String := ""
  status : String := ""
  isError : Bool := false
  contents : List ContentItem := []
  webSearchToolOutputItems : List WebSearchToolOutputItem := []
deriving DecidableEq, Repr

/-- `spec.InputUnion`: one discriminator plus one optional payload pointer
per variant, mirroring the Go struct shape (a payload can be absent even
when the discriminator selects it). -/
structure InputUnion where
  kind : InputKind
  inputMessage : Option InputOutputContent := none
  outputMessage : Option InputOutputContent := none
  reasoningMessage : Option ReasoningContent := none
  functionToolCall : Option ToolCall := none
  customToolCall : Option ToolCall := none
  webSearchToolCall : Option ToolCall := none
  functionToolOutput : Option ToolOutput := none
  customToolOutput : Option ToolOutput := none
  webSearchToolOutput : Option ToolOutput := none
deriving DecidableEq, Repr

/-! ## Heuristic token counter and prompt filter (`sdkutil`) -/

/-- `sdkutil.countHeuristicTokensInString`: trim, then count matches of
`\w+|[^\s\w]`. -/
def countHeuristicTokensInString (content : String) : Nat :=
  countRegexMatches (goTrimSpace content).data false

/-- `sdkutil.countTokensInInputOutputContent`. -/
def countTokensInInputOutputContent (c : Option InputOutputContent) : Nat :=
  match c with
  | none => 0
  | some c =>
    c.contents.foldl (fun total it =>
      match it.kind with
      | ContentItemKind.text =>
        match it.textItem with
        | some t => total + countHeuristicTokensInString t.text
        | none => total
      | ContentItemKind.refusal =>
        match it.refusalItem with
        | some r => total + countHeuristicTokensInString r.refusal
        | none => total
      | ContentItemKind.image => total
      | ContentItemKind.file =>
        match it.fileItem with
        | some f => total + countHeuristicTokensInString f.additionalContext
        | none => total) 0

/-- `sdkutil.countTokensInReasoningContent`: summary, thinking and redacted
thinking count; encrypted content is opaque and ignored. -/
def countTokensInReasoningContent (r : Option ReasoningContent) : Nat :=
  match r with
  | none => 0
  | some r =>
    (r.summary.foldl (fun t s => t + countHeuristicTokensInString s) 0) +
    (r.thinking.foldl (fun t s => t + countHeuristicTokensInString s) 0) +
    (r.redactedThinking.foldl (fun t s => t + countHeuristicTokensInString s) 0)

/-- `sdkutil.countTokensInToolCall`. -/
def countTokensInToolCall (call : Option ToolCall) : Nat :=
  match call with
  | none => 0
  | some call =>
    let base := countHeuristicTokensInString call.name +
      countHeuristicTokensInString call.arguments
    call.webSearchToolCallItems.foldl (fun total item =>
      match item.kind with
      | WebSearchToolCallKind.search =>
        match item.searchItem with
        | some s => total + countHeuristicTokensInString s.query
        | none => total
      | WebSearchToolCallKind.find =>
        match item.findItem with
        | some f => total + countHeuristicTokensInString f.pattern
        | none => total
      | WebSearchToolCallKind.openPage => total) base

/-- `sdkutil.countTokensInToolOutput`. -/
def countTokensInToolOutput (out : Option ToolOutput) : Nat :=
  match out with
  | none => 0
  | some out =>
    let base := out.contents.foldl (fun total it =>
      match it.kind, it.textItem with
      | ContentItemKind.text, some t => total + countHeuristicTokensInString t.text
      | _, _ => total) 0
    out.webSearchToolOutputItems.foldl (fun total it =>
      match it.kind, it.searchItem with
      | WebSearchToolOutputKind.search, some s =>
        total + countHeuristicTokensInString s.title +
          countHeuristicTokensInString s.renderedContent
      | _, _ => total) base

/-- `sdkutil.countHeuristicTokensInInputUnion`. -/
def countHeuristicTokensInInputUnion (in_ : InputUnion) : Nat :=
  match in_.kind with
  | InputKind.inputMessage => countTokensInInputOutputContent in_.inputMessage
  | InputKind.outputMessage => countTokensInInputOutputContent in_.outputMessage
  | InputKind.reasoningMessage => countTokensInReasoningContent in_.reasoningMessage
  | InputKind.functionToolCall => countTokensInToolCall in_.functionToolCall
  | InputKind.customToolCall => countTokensInToolCall in_.customToolCall
  | InputKind.webSearchToolCall => countTokensInToolCall in_.webSearchToolCall
  | InputKind.functionToolOutput => countTokensInToolOutput in_.functionToolOutput
  | InputKind.customToolOutput => countTokensInToolOutput in_.customToolOutput
  | InputKind.webSearchToolOutput => countTokensInToolOutput in_.webSearchToolOutput

/-- The newest-first accumulation loop of
`sdkutil.FilterMessagesByTokenCount`: `rest` is the not-yet-visited part of
the reversed input, `total` the running token count, `acc` the kept items in
newest-first order.  The `total > max` break after an append can only fire
on the very first (newest) item. -/
def filterNewestFirstLoop (maxTokenCount : Int) :
    List InputUnion → Int → List InputUnion → List InputUnion
  | [], _, acc => acc
  | m :: rest, total, acc =>
    let tok : Int := countHeuristicTokensInInputUnion m
    if total + tok ≤ maxTokenCount ∨ acc = [] then
      if total + tok > maxTokenCount then acc ++ [m]
      else filterNewestFirstLoop maxTokenCount rest (total + tok) (acc ++ [m])
    else acc

/-- The token-truncation phase of `sdkutil.FilterMessagesByTokenCount`
(steps 1 and 2 of the algorithm, plus the reversal back to chronological
order). -/
def truncateByTokenCount (messages : List InputUnion) (maxTokenCount : Int) :
    List InputUnion :=
  (filterNewestFirstLoop maxTokenCount messages.reverse 0 []).reverse

/-- Projection used by `sdkutil.pruneOrphanToolOutputs`: the `ToolCall`
payload of a tool-call item, if any. -/
def toolCallOf (in_ : InputUnion) : Option ToolCall :=
  match in_.kind with
  | InputKind.functionToolCall => in_.functionToolCall
  | InputKind.customToolCall => in_.customToolCall
  | InputKind.webSearchToolCall => in_.webSearchToolCall
  | _ => none

/-- Projection used by `sdkutil.pruneOrphanToolOutputs`: the `ToolOutput`
payload of a tool-output item, if any. -/
def toolOutputOf (in_ : InputUnion) : Option ToolOutput :=
  match in_.kind with
  | InputKind.functionToolOutput => in_.functionToolOutput
  | InputKind.customToolOutput => in_.customToolOutput
  | InputKind.webSearchToolOutput => in_.webSearchToolOutput
  | _ => none

/-- The CallID set built by the first loop of
`sdkutil.pruneOrphanToolOutputs`: trimmed, non-empty CallIDs of all kept
tool calls (the Go code stores them in a set; we keep the list, and use
membership). -/
def collectCallIDs (msgs : List InputUnion) : List String :=
  msgs.filterMap (fun in_ =>
    match toolCallOf in_ with
    | none => none
    | some call =>
      let callID := goTrimSpace call.callId
      if callID = "" then none else some callID)

/-- Second loop of `sdkutil.pruneOrphanToolOutputs`: drop every tool output
whose trimmed CallID is non-empty and absent from the collected set.  The Go
`for`/`continue`/`append` loop is a list filter. -/
def pruneOrphanToolOutputs (msgs : List InputUnion) : List InputUnion :=
  if msgs = [] then msgs
  else
    let callIDs := collectCallIDs msgs
    msgs.filter (fun in_ =>
      match toolOutputOf in_ with
      | none => true
      | some toolOut =>
        let callID := goTrimSpace toolOut.callId
        callID = "" ∨ callID ∈ callIDs)

/-- `sdkutil.FilterMessagesByTokenCount`: newest-first token truncation,
reversal to chronological order, then orphan tool-output pruning. -/
def FilterMessagesByTokenCount (messages : List InputUnion)
    (maxTokenCount : Int) : List InputUnion :=
  if messages = [] then []
  else pruneOrphanToolOutputs (truncateByTokenCount messages maxTokenCount)

/-- Modelled from the spec: `sdkutil.IsInputUnionEmpty` is called by the
sources but its definition is not among them.  Per the data model (one
payload pointer per variant), an input-union element is empty when the
payload selected by its discriminator is absent. -/
def IsInputUnionEmpty (in_ : InputUnion) : Bool :=
  match in_.kind with
  | InputKind.inputMessage => in_.inputMessage.isNone
  | InputKind.outputMessage => in_.outputMessage.isNone
  | InputKind.reasoningMessage => in_.reasoningMessage.isNone
  | InputKind.functionToolCall => in_.functionToolCall.isNone
  | InputKind.customToolCall => in_.customToolCall.isNone
  | InputKind.webSearchToolCall => in_.webSearchToolCall.isNone
  | InputKind.functionToolOutput => in_.functionToolOutput.isNone
  | InputKind.customToolOutput => in_.customToolOutput.isNone
  | InputKind.webSearchToolOutput => in_.webSearchToolOutput.isNone

/-! ## Buffered streamer (`sdkutil.NewBufferedStreamer`)

The runtime interleaves `write` calls with timer ticks; the mutex
serializes all buffer accesses, so a run is a sequence of atomic steps.
Each step either appends a chunk and, at or above the size threshold,
drains the buffer into an `emit` call, or (timer tick) drains a non-empty
buffer.  `flush` performs one final drain. -/

inductive StreamOp where
  | write (chunk : String)
  | tick
deriving DecidableEq, Repr

structure BufferedStreamerState where
  emitted : List String := []
  buf : String := ""
deriving DecidableEq, Repr

/-- Default-application for the `maxSize` argument of
`sdkutil.NewBufferedStreamer` (`FlushChunkSize = 1024`). -/
def resolveFlushChunkSize (maxSize : Int) : Int :=
  if maxSize ≤ 0 then 1024 else maxSize

/-- The `write` closure: append to the buffer; if the buffer length (in
bytes, as `strings.Builder.Len`) reaches `maxSize`, drain and emit. -/
def streamerWrite (maxSize : Int) (st : BufferedStreamerState)
    (chunk : String) : BufferedStreamerState :=
  let buf := st.buf ++ chunk
  if maxSize ≤ (buf.utf8ByteSize : Int) then
    { emitted := st.emitted ++ [buf], buf := "" }
  else
    { st with buf := buf }

/-- One tick of the background goroutine: drain and emit if non-empty. -/
def streamerTick (st : BufferedStreamerState) : BufferedStreamerState :=
  if st.buf.utf8ByteSize > 0 then
    { emitted := st.emitted ++ [st.buf], buf := "" }
  else st

/-- The `flush` closure (first call; the `sync.Once` guard makes later
calls no-ops): stop the ticker and drain once if non-empty. -/
def streamerFlush (st : BufferedStreamerState) : BufferedStreamerState :=
  if st.buf.utf8ByteSize > 0 then
    { emitted := st.emitted ++ [st.buf], buf := "" }
  else st

def runStreamerOps (maxSize : Int) :
    List StreamOp → BufferedStreamerState → BufferedStreamerState
  | [], st => st
  | StreamOp.write chunk :: rest, st =>
    runStreamerOps maxSize rest (streamerWrite maxSize st chunk)
  | StreamOp.tick :: rest, st =>
    runStreamerOps maxSize rest (streamerTick st)

/-- A full streamer run: the interleaved writes and ticks, then the final
`flush`. -/
def streamerRun (maxSize : Int) (ops : List StreamOp) : BufferedStreamerState :=
  streamerFlush (runStreamerOps (resolveFlushChunkSize maxSize) ops {})

/-- The chunks passed to `write` during a run, in order. -/
def streamerWrites (ops : List StreamOp) : List String :=
  ops.filterMap (fun op =>
    match op with
    | StreamOp.write chunk => some chunk
    | StreamOp.tick => none)

/-! ## Anthropic thinking policy (`anthropicsdk`) -/

def anthropicDefaultThinkingBudget : Int := 1024

inductive ThinkingOverride where
  | none
  | forceEnabled
  | forceDisabled
deriving DecidableEq, Repr

structure AnthropicThinkingAnalysis where
  override : ThinkingOverride := ThinkingOverride.none
  totalReasoningMessages : Nat := 0
  signedOrRedactedReasoning : Nat := 0
  unsignedReasoning : Nat := 0
  lastUserIsToolResult : Bool := false
  prevAssistantStartsThinking : Bool := false
deriving DecidableEq, Repr

/-- `anthropicsdk.isAnthropicSignedOrRedactedReasoning`. -/
def isAnthropicSignedOrRedactedReasoning (r : Option ReasoningContent) : Bool :=
  match r with
  | none => false
  | some r =>
    if r.redactedThinking.any (fun s => goTrimSpace s ≠ "") then true
    else if goTrimSpace r.signature = "" then false
    else r.thinking.any (fun t => goTrimSpace t ≠ "")

/-- `anthropicsdk.isUserAuthoredItem`. -/
def isUserAuthoredItem (in_ : InputUnion) : Bool :=
  if IsInputUnionEmpty in_ then false
  else
    match in_.kind with
    | InputKind.inputMessage =>
      match in_.inputMessage with
      | some m => m.role = roleUser
      | none => false
    | InputKind.functionToolOutput => in_.functionToolOutput.isSome
    | InputKind.customToolOutput => in_.customToolOutput.isSome
    | _ => false

/-- `anthropicsdk.isAssistantAuthoredItem`. -/
def isAssistantAuthoredItem (in_ : InputUnion) : Bool :=
  if IsInputUnionEmpty in_ then false
  else
    match in_.kind with
    | InputKind.outputMessage =>
      match in_.outputMessage with
      | some m => m.role = roleAssistant
      | none => false
    | InputKind.reasoningMessage => in_.reasoningMessage.isSome
    | InputKind.functionToolCall => true
    | InputKind.customToolCall => true
    | InputKind.webSearchToolCall => true
    | InputKind.webSearchToolOutput => in_.webSearchToolOutput.isSome
    | _ => false

/-- Backwards scan of `anthropicsdk.findLastUserMessageIndex`, over the
reversed index-tagged input list. -/
def findLastUserScan : List (Nat × InputUnion) → Int × Bool
  | [] => (-1, false)
  | (i, in_) :: rest =>
    if IsInputUnionEmpty in_ then findLastUserScan rest
    else
      match in_.kind with
      | InputKind.inputMessage =>
        match in_.inputMessage with
        | some m =>
          if m.role = roleUser then ((i : Int), false) else findLastUserScan rest
        | none => findLastUserScan rest
      | InputKind.functionToolOutput =>
        if in_.functionToolOutput.isSome then ((i : Int), true)
        else findLastUserScan rest
      | InputKind.customToolOutput =>
        if in_.customToolOutput.isSome then ((i : Int), true)
        else findLastUserScan rest
      | _ => findLastUserScan rest

/-- `anthropicsdk.findLastUserMessageIndex`: index of the last user-authored
item (user input message, or function/custom tool output) and whether it is
a tool result. -/
def findLastUserMessageIndex (inputs : List InputUnion) : Int × Bool :=
  findLastUserScan inputs.enum.reverse

/-- `anthropicsdk.prevAssistantTurnStartsWithThinking`. -/
def prevAssistantTurnStartsWithThinking (inputs : List InputUnion)
    (toolResultIdx : Int) : Bool :=
  if toolResultIdx ≤ 0 ∨ (inputs.length : Int) - 1 < toolResultIdx then false
  else
    let before := inputs.take toolResultIdx.toNat
    let prevUserIdx : Int :=
      match before.enum.reverse.find? (fun p => isUserAuthoredItem p.2) with
      | some p => (p.1 : Int)
      | none => -1
    match (before.drop (prevUserIdx + 1).toNat).find? isAssistantAuthoredItem with
    | some in_ =>
      decide (in_.kind = InputKind.reasoningMessage) &&
        isAnthropicSignedOrRedactedReasoning in_.reasoningMessage
    | none => false

/-- Counting loop of `anthropicsdk.analyzeAnthropicThinkingBehavior`:
`(total, signedOrRedacted, unsigned)`. -/
def countAnthropicReasoning (inputs : List InputUnion) : Nat × Nat × Nat :=
  inputs.foldl (fun acc in_ =>
    if in_.kind ≠ InputKind.reasoningMessage then acc
    else if IsInputUnionEmpty in_ ∨ in_.reasoningMessage = none then acc
    else if isAnthropicSignedOrRedactedReasoning in_.reasoningMessage then
      (acc.1 + 1, acc.2.1 + 1, acc.2.2)
    else
      (acc.1 + 1, acc.2.1, acc.2.2 + 1)) (0, 0, 0)

/-- `anthropicsdk.analyzeAnthropicThinkingBehavior`. -/
def analyzeAnthropicThinkingBehavior (inputs : List InputUnion) :
    AnthropicThinkingAnalysis :=
  if inputs = [] then {}
  else
    let counts := countAnthropicReasoning inputs
    let lastUser := findLastUserMessageIndex inputs
    let prevStarts :=
      if lastUser.2 ∧ 0 ≤ lastUser.1 then
        prevAssistantTurnStartsWithThinking inputs lastUser.1
      else false
    let override :=
      if counts.1 = 0 then
        if lastUser.2 then ThinkingOverride.forceDisabled
        else ThinkingOverride.none
      else if 0 < counts.2.1 ∧ counts.2.2 = 0 then
        if lastUser.2 ∧ prevStarts then ThinkingOverride.forceEnabled
        else ThinkingOverride.none
      else ThinkingOverride.none
    { override := override
      totalReasoningMessages := counts.1
      signedOrRedactedReasoning := counts.2.1
      unsignedReasoning := counts.2.2
      lastUserIsToolResult := lastUser.2
      prevAssistantStartsThinking := prevStarts }

structure ReasoningParam where
  type : String := ""
  level : String := ""
  tokens : Int := 0
deriving DecidableEq, Repr

/-- `spec.ModelParam` (temperature, a Go `float64` carried around but never
computed with, is modelled as a rational). -/
structure ModelParam where
  name : String := ""
  stream : Bool := false
  maxPromptLength : Int := 0
  maxOutputLength : Int := 0
  temperature : Option ℚ := none
  reasoning : Option ReasoningParam := none
  systemPrompt : String := ""
  timeout : Int := 0
deriving DecidableEq, Repr

def reasoningTypeHybridWithTokens : String := "hybridWithTokens"

def reasoningTypeSingleWithLevels : String := "singleWithLevels"

/-- The slice of `anthropic.MessageNewParams` the thinking policy writes:
`Thinking` (some budget = enabled config) and `Temperature`. -/
structure AnthropicMessageParams where
  thinking : Option Int := none
  temperature : Option ℚ := none
deriving DecidableEq, Repr

/-- `anthropicsdk.requestedAnthropicThinking`. -/
def requestedAnthropicThinking (mp : ModelParam) : Bool × Int :=
  match mp.reasoning with
  | none => (false, 0)
  | some rp =>
    if rp.type = reasoningTypeHybridWithTokens then
      (true, max rp.tokens anthropicDefaultThinkingBudget)
    else if rp.type = reasoningTypeSingleWithLevels then
      if rp.level = "none" then (false, 0)
      else if rp.level = "minimal" ∨ rp.level = "low" then (true, 1024)
      else if rp.level = "medium" then (true, 2048)
      else if rp.level = "high" then (true, 8192)
      else if rp.level = "xhigh" then (true, 16384)
      else (false, 0)
    else (false, 0)

/-- `anthropicsdk.applyAnthropicThinkingPolicy` (the Go function mutates
`params`; here the updated value is returned). -/
def applyAnthropicThinkingPolicy (params : AnthropicMessageParams)
    (mp : ModelParam) (a : AnthropicThinkingAnalysis) : AnthropicMessageParams :=
  let requested := requestedAnthropicThinking mp
  let afterOverride :=
    match a.override with
    | ThinkingOverride.forceDisabled => (false, (0 : Int))
    | ThinkingOverride.forceEnabled =>
      (true, if requested.2 ≤ 0 then anthropicDefaultThinkingBudget else requested.2)
    | ThinkingOverride.none => requested
  let effective :=
    if a.override ≠ ThinkingOverride.forceDisabled ∧ ¬ afterOverride.1 ∧
        0 < a.signedOrRedactedReasoning then
      (true, anthropicDefaultThinkingBudget)
    else afterOverride
  if effective.1 then
    { params with
      thinking :=
        some (if effective.2 ≤ 0 then anthropicDefaultThinkingBudget else effective.2) }
  else
    match mp.temperature with
    | some t => { params with temperature := some t }
    | none => params

/-! ## OpenAI Responses adapter (`openairesponsessdk`)

The vendor request item union is modelled with one constructor per union
member the adapter can emit, carrying the fields the adapter sets. -/

def statusInProgress : String := "inProgress"

/-- `openairesponsessdk.fromOpenAIStatus`. -/
def fromOpenAIStatus (status : String) : String :=
  if status = "in_progress" then statusInProgress else status

/-- `openairesponsessdk.toOpenAIStatus`. -/
def toOpenAIStatus (status : String) : String :=
  if status = statusInProgress then "in_progress" else status

def defaultImageDataMIME : String := "image/jpeg"

def defaultFileDataMIME : String := "application/pdf"

structure ReasoningItemSummaryParam where
  text : String
deriving DecidableEq, Repr

structure ReasoningItemContentParam where
  text : String
deriving DecidableEq, Repr

/-- `responses.ResponseReasoningItemParam`, restricted to the fields the
adapter writes. -/
structure ResponseReasoningItemParam where
  id : String := ""
  status : String := ""
  encryptedContent : Option String := none
  summary : List ReasoningItemSummaryParam := []
  content : List ReasoningItemContentParam := []
deriving DecidableEq, Repr

inductive RespInputContent where
  | inputText (text : String)
  | inputImage (detail : String) (imageURL : String)
  | inputFile (fileData : Option String) (fileURL : Option String)
      (fileName : Option String)
deriving DecidableEq, Repr

structure RespURLAnnot where
  url : String := ""
  title : String := ""
  startIndex : Int := 0
  endIndex : Int := 0
deriving DecidableEq, Repr

inductive RespOutputContent where
  | outputText (annots : List RespURLAnnot) (text : String)
  | refusal (refusal : String)
deriving DecidableEq, Repr

inductive RespWebSearchAction where
  | search (query : String) (sources : List String)
  | openPage (url : String)
  | find (pattern : String) (url : String)
deriving DecidableEq, Repr

inductive RespFnOutContent where
  | inputText (text : String)
  | inputImage (detail : String) (imageURL : String)
  | inputFile (fileData : Option String) (fileURL : Option String)
      (fileName : Option String)
deriving DecidableEq, Repr

/-- `responses.ResponseInputItemUnionParam`, restricted to the union members
`toOpenAIResponsesInput` can emit. -/
inductive ResponseInputItem where
  | inputMessage (content : List RespInputContent) (role : String) (status : String)
  | outputMessage (id : String) (content : List RespOutputContent) (status : String)
  | reasoning (item : ResponseReasoningItemParam)
  | functionCall (id : String) (callId : String) (name : String)
      (arguments : String) (status : String)
  | customToolCall (id : String) (callId : String) (name : String) (input : String)
  | webSearchCall (id : String) (status : String) (action : RespWebSearchAction)
  | functionCallOutput (id : String) (callId : String)
      (output : List RespFnOutContent) (status : String)
  | customToolCallOutput (id : String) (callId : String)
      (output : List RespFnOutContent)
deriving DecidableEq, Repr

/-- `openairesponsessdk.firstNonEmptyEncrypted` (thinking.go): the first
entry that is non-empty after trimming, trimmed. -/
def firstNonEmptyEncrypted (items : List String) : Option String :=
  match items.find? (fun s => goTrimSpace s ≠ "") with
  | some s => some (goTrimSpace s)
  | none => none

/-- `openairesponsessdk.sanitizeReasoningInputs` (thinking.go): if any
reasoning message carries non-empty encrypted content, keep only those,
stripped to the encrypted content; otherwise drop all reasoning messages. -/
def sanitizeReasoningInputs (inputs : List InputUnion) : List InputUnion :=
  if inputs = [] then []
  else
    let hasEncrypted := inputs.any (fun in_ =>
      decide (in_.kind = InputKind.reasoningMessage) &&
      !IsInputUnionEmpty in_ &&
      (match in_.reasoningMessage with
       | some rm => (firstNonEmptyEncrypted rm.encryptedContent).isSome
       | none => false))
    inputs.filterMap (fun in_ =>
      if in_.kind ≠ InputKind.reasoningMessage then some in_
      else if IsInputUnionEmpty in_ ∨ in_.reasoningMessage = none then none
      else
        match in_.reasoningMessage with
        | none => none
        | some rm =>
          if ¬ hasEncrypted then none
          else
            match firstNonEmptyEncrypted rm.encryptedContent with
            | none => none
            | some enc =>
              some { in_ with
                reasoningMessage := some { rm with
                  signature := ""
                  summary := []
                  thinking := []
                  redactedThinking := []
                  encryptedContent := [enc] } })

/-- `openairesponsessdk.reasoningContentToOpenAIItem`
(api_openai_responses.go; this is the conversion `toOpenAIResponsesInput`
actually calls). -/
def reasoningContentToOpenAIItem (r : Option ReasoningContent) :
    Option ResponseInputItem :=
  match r with
  | none => none
  | some r =>
    let status :=
      if r.status = fromOpenAIStatus "incomplete" then "incomplete"
      else if r.status = fromOpenAIStatus "in_progress" then "in_progress"
      else "completed"
    let encrypted :=
      match r.encryptedContent with
      | e :: _ => some e
      | [] => none
    let summary := r.summary.filterMap (fun s =>
      let s := goTrimSpace s
      if s = "" then none else some (ReasoningItemSummaryParam.mk s))
    let content := r.thinking.filterMap (fun t =>
      let t := goTrimSpace t
      if t = "" then none else some (ReasoningItemContentParam.mk t))
    some (ResponseInputItem.reasoning
      { id := r.id, status := status, encryptedContent := encrypted
        summary := summary, content := content })

/-- `openairesponsessdk.contentItemsToOpenAIInputContent` (the function
always returns a nil error, so it is modelled total). -/
def contentItemsToOpenAIInputContent (items : List ContentItem) :
    List RespInputContent :=
  items.filterMap (fun it =>
    match it.kind with
    | ContentItemKind.text =>
      match it.textItem with
      | none => none
      | some t =>
        let txt := goTrimSpace t.text
        if txt = "" then none else some (RespInputContent.inputText txt)
    | ContentItemKind.image =>
      match it.imageItem with
      | none => none
      | some img =>
        let detail :=
          if img.detail = "auto" then "auto"
          else if img.detail = "high" then "high"
          else if img.detail = "low" then "low"
          else ""
        let data := goTrimSpace img.imageData
        if data ≠ "" then
          let mime :=
            if goTrimSpace img.imageMIME = "" then defaultImageDataMIME
            else goTrimSpace img.imageMIME
          some (RespInputContent.inputImage detail
            ("data:" ++ mime ++ ";base64," ++ data))
        else
          let u := goTrimSpace img.imageURL
          if u ≠ "" then some (RespInputContent.inputImage detail u)
          else none
    | ContentItemKind.file =>
      match it.fileItem with
      | none => none
      | some f =>
        let data := goTrimSpace f.fileData
        if data ≠ "" then
          let mime := if f.fileMIME ≠ "" then f.fileMIME else defaultFileDataMIME
          some (RespInputContent.inputFile
            (some ("data:" ++ mime ++ ";base64," ++ data)) none
            (some (goTrimSpace f.fileName)))
        else
          let u := goTrimSpace f.fileURL
          if u ≠ "" then some (RespInputContent.inputFile none (some u) none)
          else none
    | ContentItemKind.refusal => none)

/-- `openairesponsessdk.citationsToAnnotations`. -/
def citationsToAnnotationList (citations : List Citation) : List RespURLAnnot :=
  citations.filterMap (fun a =>
    match a.urlCitation with
    | none => none
    | some c => some
        { url := c.url, title := c.title
          startIndex := c.startIndex, endIndex := c.endIndex })

/-- `openairesponsessdk.contentItemsToOpenAIOutputContent` (always returns a
nil error, so modelled total). -/
def contentItemsToOpenAIOutputContent (items : List ContentItem) :
    List RespOutputContent :=
  items.filterMap (fun it =>
    match it.kind with
    | ContentItemKind.text =>
      match it.textItem with
      | none => none
      | some t =>
        some (RespOutputContent.outputText (citationsToAnnotationList t.citations) t.text)
    | ContentItemKind.refusal =>
      match it.refusalItem with
      | none => none
      | some r => some (RespOutputContent.refusal r.refusal)
    | _ => none)

/-- `openairesponsessdk.webSearchToolCallToOpenAIResponses`. -/
def webSearchToolCallToOpenAIResponses (toolCall : Option ToolCall) :
    Option ResponseInputItem :=
  match toolCall with
  | none => none
  | some call =>
    if goTrimSpace call.id = "" ∨ call.webSearchToolCallItems = [] then none
    else
      let status :=
        if call.status = fromOpenAIStatus "in_progress" then "in_progress"
        else if call.status = fromOpenAIStatus "failed" then "failed"
        else if call.status = fromOpenAIStatus "searching" then "searching"
        else "completed"
      match call.webSearchToolCallItems with
      | [] => none
      | wcall :: _ =>
        match wcall.kind with
        | WebSearchToolCallKind.search =>
          match wcall.searchItem with
          | none => none
          | some s =>
            some (ResponseInputItem.webSearchCall call.id status
              (RespWebSearchAction.search s.query (s.sources.map (fun u => u.url))))
        | WebSearchToolCallKind.openPage =>
          match wcall.openPageItem with
          | none => none
          | some p =>
            some (ResponseInputItem.webSearchCall call.id status
              (RespWebSearchAction.openPage p.url))
        | WebSearchToolCallKind.find =>
          match wcall.findItem with
          | none => none
          | some f =>
            some (ResponseInputItem.webSearchCall call.id status
              (RespWebSearchAction.find f.pattern f.url))

/-- `openairesponsessdk.toolCallToOpenAIItem`. -/
def toolCallToOpenAIItem (call : Option ToolCall) : Option ResponseInputItem :=
  match call with
  | none => none
  | some call =>
    if goTrimSpace call.id = "" then none
    else
      match call.type with
      | ToolType.function =>
        let status :=
          if call.status = fromOpenAIStatus "incomplete" then "incomplete"
          else if call.status = fromOpenAIStatus "in_progress" then "in_progress"
          else "completed"
        some (ResponseInputItem.functionCall call.id call.callId call.name
          call.arguments status)
      | ToolType.custom =>
        some (ResponseInputItem.customToolCall call.id call.callId call.name
          call.arguments)
      | ToolType.webSearch => webSearchToolCallToOpenAIResponses (some call)

/-- `openairesponsessdk.contentItemsToOpenAIFunctionCallOutputContent`
(always returns a nil error, so modelled total; the Go argument type
`[]spec.ToolOutputItemUnion` has the same fields as the content-item union,
which the model reuses). -/
def contentItemsToOpenAIFunctionCallOutputContent (items : List ContentItem) :
    List RespFnOutContent :=
  items.filterMap (fun it =>
    match it.kind with
    | ContentItemKind.text =>
      match it.textItem with
      | none => none
      | some t =>
        let txt := goTrimSpace t.text
        if txt = "" then none else some (RespFnOutContent.inputText txt)
    | ContentItemKind.image =>
      match it.imageItem with
      | none => none
      | some img =>
        let detail :=
          if img.detail = "auto" then "auto"
          else if img.detail = "high" then "high"
          else if img.detail = "low" then "low"
          else ""
        let data := goTrimSpace img.imageData
        if data ≠ "" then
          let mime :=
            if goTrimSpace img.imageMIME = "" then defaultImageDataMIME
            else goTrimSpace img.imageMIME
          some (RespFnOutContent.inputImage detail
            ("data:" ++ mime ++ ";base64," ++ data))
        else
          let u := goTrimSpace img.imageURL
          if u ≠ "" then some (RespFnOutContent.inputImage detail u)
          else none
    | ContentItemKind.file =>
      match it.fileItem with
      | none => none
      | some f =>
        let data := goTrimSpace f.fileData
        if data ≠ "" then
          let mime := if f.fileMIME ≠ "" then f.fileMIME else defaultFileDataMIME
          some (RespFnOutContent.inputFile
            (some ("data:" ++ mime ++ ";base64," ++ data)) none
            (some (goTrimSpace f.fileName)))
        else
          let u := goTrimSpace f.fileURL
          if u ≠ "" then some (RespFnOutContent.inputFile none (some u) none)
          else none
    | ContentItemKind.refusal => none)

/-- `openairesponsessdk.toolOutputToOpenAIResponses` (the custom branch
copies each function-call output content item field-for-field into the
custom-output content union; the copy preserves each item unchanged in this
model, which uses one union for both). -/
def toolOutputToOpenAIResponses (toolOutput : Option ToolOutput) :
    Option ResponseInputItem :=
  match toolOutput with
  | none => none
  | some toolOut =>
    if goTrimSpace toolOut.callId = "" then none
    else
      match toolOut.type with
      | ToolType.function =>
        let status :=
          if toolOut.status = fromOpenAIStatus "incomplete" then "incomplete"
          else if toolOut.status = fromOpenAIStatus "in_progress" then "in_progress"
          else "completed"
        let items := contentItemsToOpenAIFunctionCallOutputContent toolOut.contents
        if items ≠ [] then
          some (ResponseInputItem.functionCallOutput toolOut.id toolOut.callId
            items status)
        else none
      | ToolType.custom =>
        let fcItems := contentItemsToOpenAIFunctionCallOutputContent toolOut.contents
        if fcItems ≠ [] then
          some (ResponseInputItem.customToolCallOutput toolOut.id toolOut.callId
            fcItems)
        else none
      | ToolType.webSearch => none

/-- `openairesponsessdk.toOpenAIResponsesInput` (api_openai_responses.go;
the error return is always nil, so the function is modelled total).  Note:
this builder consumes `req.Inputs` directly; `sanitizeReasoningInputs` is
not applied anywhere on this path. -/
def toOpenAIResponsesInput (inputs : List InputUnion) : List ResponseInputItem :=
  inputs.filterMap (fun in_ =>
    if IsInputUnionEmpty in_ then none
    else
      match in_.kind with
      | InputKind.inputMessage =>
        match in_.inputMessage with
        | none => none
        | some m =>
          if m.role ≠ roleUser then none
          else
            let items := contentItemsToOpenAIInputContent m.contents
            if items = [] then none
            else some (ResponseInputItem.inputMessage items "user"
              (toOpenAIStatus m.status))
      | InputKind.outputMessage =>
        match in_.outputMessage with
        | none => none
        | some m =>
          if m.role ≠ roleAssistant then none
          else
            let items := contentItemsToOpenAIOutputContent m.contents
            if items = [] then none
            else
              let status :=
                if m.status = fromOpenAIStatus "incomplete" then "incomplete"
                else if m.status = fromOpenAIStatus "in_progress" then "in_progress"
                else "completed"
              some (ResponseInputItem.outputMessage m.id items status)
      | InputKind.reasoningMessage =>
        match in_.reasoningMessage with
        | none => none
        | some rm => reasoningContentToOpenAIItem (some rm)
      | InputKind.functionToolCall =>
        toolCallToOpenAIItem
          (match in_.functionToolCall with
           | some c => some c
           | none =>
             match in_.customToolCall with
             | some c => some c
             | none => in_.webSearchToolCall)
      | InputKind.customToolCall =>
        toolCallToOpenAIItem
          (match in_.functionToolCall with
           | some c => some c
           | none =>
             match in_.customToolCall with
             | some c => some c
             | none => in_.webSearchToolCall)
      | InputKind.webSearchToolCall =>
        toolCallToOpenAIItem
          (match in_.functionToolCall with
           | some c => some c
           | none =>
             match in_.customToolCall with
             | some c => some c
             | none => in_.webSearchToolCall)
      | InputKind.functionToolOutput =>
        toolOutputToOpenAIResponses
          (if in_.functionToolOutput.isSome then in_.functionToolOutput
           else in_.customToolOutput)
      | InputKind.customToolOutput =>
        toolOutputToOpenAIResponses
          (if in_.functionToolOutput.isSome then in_.functionToolOutput
           else in_.customToolOutput)
      | InputKind.webSearchToolOutput => none)

/-! ## Provider registry (`provider_set.go`) and OpenAI Chat Completions
adapter lifecycle (`openaichatsdk`)

Locks serialize the map accesses; a single operation is modelled as its
body between lock acquisitions.  Fields not read by the verified
operations (origin, path, headers, debugger wiring) are omitted from the
state records. -/

structure ProviderParam where
  name : String := ""
  sdkType : String := ""
  apiKey : String := ""
  origin : String := ""
  apiKeyHeaderKey : String := ""
deriving DecidableEq, Repr

/-- `openaichatsdk.OpenAIChatCompletionsAPI`: the provider params pointer
and the cached vendor client pointer (only presence of the client
matters). -/
structure OpenAIChatCompletionsAPI where
  providerParam : Option ProviderParam := none
  client : Option Unit := none
deriving DecidableEq, Repr

/-- `openaichatsdk.OpenAIChatCompletionsAPI.IsConfigured`. -/
def chatIsConfigured (api : OpenAIChatCompletionsAPI) : Bool :=
  match api.providerParam with
  | some pp => pp.apiKey ≠ ""
  | none => false

/-- `openaichatsdk.OpenAIChatCompletionsAPI.SetProviderAPIKey`: rejects an
empty key with an error; otherwise stores the key. -/
def chatSetProviderAPIKey (api : OpenAIChatCompletionsAPI) (apiKey : String) :
    OpenAIChatCompletionsAPI × Option String :=
  if apiKey = "" then
    (api, some "openai chat completions api LLM: invalid apikey provided")
  else
    match api.providerParam with
    | none => (api, some "openai chat completions api LLM: no ProviderParam found")
    | some pp =>
      ({ api with providerParam := some { pp with apiKey := apiKey } }, none)

/-- `openaichatsdk.OpenAIChatCompletionsAPI.InitLLM`: without a configured
key it logs and returns nil leaving the client untouched; otherwise it
constructs the vendor client. -/
def chatInitLLM (api : OpenAIChatCompletionsAPI) :
    OpenAIChatCompletionsAPI × Option String :=
  if ¬ chatIsConfigured api then (api, none)
  else ({ api with client := some () }, none)

/-- `openaichatsdk.OpenAIChatCompletionsAPI.DeInitLLM`: clears the cached
client. -/
def chatDeInitLLM (api : OpenAIChatCompletionsAPI) :
    OpenAIChatCompletionsAPI × Option String :=
  ({ api with client := none }, none)

/-- `ProviderSetAPI.SetProviderAPIKey`, after the read-locked lookup
succeeded, instantiated at the OpenAI Chat Completions adapter: trim the
key, forward it to the adapter, then de-init on empty or init on
non-empty. -/
def setProviderAPIKeyForChatProvider (p : OpenAIChatCompletionsAPI)
    (apiKey : String) : OpenAIChatCompletionsAPI × Option String :=
  let trimmed := goTrimSpace apiKey
  let r1 := chatSetProviderAPIKey p trimmed
  match r1.2 with
  | some e => (r1.1, some e)
  | none =>
    if trimmed = "" then chatDeInitLLM r1.1
    else chatInitLLM r1.1

structure Usage where
  inputTokensTotal : Int := 0
  inputTokensCached : Int := 0
  inputTokensUncached : Int := 0
  outputTokens : Int := 0
  reasoningTokens : Int := 0
deriving DecidableEq, Repr

structure SpecError where
  message : String := ""
deriving DecidableEq, Repr

structure ChatCompletionUsage where
  promptTokens : Int := 0
  promptCachedTokens : Int := 0
  completionTokens : Int := 0
  completionReasoningTokens : Int := 0
deriving DecidableEq, Repr

/-- `openai.ChatCompletion`, restricted to the fields the adapter reads;
`χ` abstracts the choice payload (only emptiness of `choices` is
inspected on the verified paths). -/
structure ChatCompletion (χ : Type) where
  choices : List χ := []
  usage : ChatCompletionUsage := {}
deriving DecidableEq, Repr

/-- `spec.FetchCompletionResponse`; `γ` abstracts the decoded output items
and `δ` the opaque debug payload. -/
structure FetchCompletionResponse (γ δ : Type) where
  outputs : List γ := []
  usage : Option Usage := none
  error : Option SpecError := none
  debugDetails : Option δ := none
deriving DecidableEq, Repr

structure FetchCompletionRequest where
  modelParam : ModelParam := {}
  inputs : List InputUnion := []
deriving DecidableEq, Repr

/-- `openaichatsdk.usageFromOpenAIChatCompletion`. -/
def usageFromOpenAIChatCompletion {χ : Type}
    (resp : Option (ChatCompletion χ)) : Usage :=
  match resp with
  | none => {}
  | some r =>
    { inputTokensTotal := r.usage.promptTokens
      inputTokensCached := r.usage.promptCachedTokens
      inputTokensUncached := max (r.usage.promptTokens - r.usage.promptCachedTokens) 0
      outputTokens := r.usage.completionTokens
      reasoningTokens := r.usage.completionReasoningTokens }

/-- `openaichatsdk.OpenAIChatCompletionsAPI.doNonStreaming`, parametrized by
the SDK call outcome `sdkCall` (response pointer and error of
`api.client.Chat.Completions.New`), the optional debugger
(`BuildDebugDetails` as a function), and the output decoder
(`outputsFromOpenAIChatCompletion` with the tool-choice name map already
applied; its internals are irrelevant to the error path verified here). -/
def chatIsNilResp {χ : Type} (oaiResp : Option (ChatCompletion χ)) : Bool :=
  match oaiResp with
  | none => true
  | some r => r.choices.isEmpty

def doNonStreaming {χ γ δ : Type}
    (sdkCall : Option (ChatCompletion χ) × Option String)
    (debugBuilder : Option (Option (ChatCompletion χ) → Option String → Bool → δ))
    (outputsFrom : ChatCompletion χ → List γ) :
    FetchCompletionResponse γ δ × Option String :=
  let oaiResp := sdkCall.1
  let err := sdkCall.2
  let isNilResp := chatIsNilResp oaiResp
  let dbg := debugBuilder.map (fun b => b oaiResp err isNilResp)
  let usage := usageFromOpenAIChatCompletion oaiResp
  match err with
  | some e =>
    ({ usage := some usage, error := some { message := e }, debugDetails := dbg },
      some e)
  | none =>
    match oaiResp with
    | some r =>
      ({ outputs := if isNilResp then [] else outputsFrom r
         usage := some usage, debugDetails := dbg }, none)
    | none => ({ usage := some usage, debugDetails := dbg }, none)

/-- `ProviderSetAPI.FetchCompletion`: validation, read-locked provider
lookup, prompt filtering when `maxPromptLength > 0`, delegation, and error
wrapping.  The provider's `FetchCompletion` is the dispatched function
value `p`. -/
def ProviderSetFetchCompletion {γ δ : Type}
    (providers : List (String ×
      (FetchCompletionRequest → Option (FetchCompletionResponse γ δ) × Option String)))
    (provider : String) (req : Option FetchCompletionRequest) :
    Option (FetchCompletionResponse γ δ) × Option String :=
  match req with
  | none => (none, some "got empty fetch completion input")
  | some req =>
    if provider = "" ∨ req.inputs = [] ∨ req.modelParam.name = "" then
      (none, some "got empty fetch completion input")
    else
      match providers.lookup provider with
      | none => (none, some "invalid provider")
      | some p =>
        let reqCopy :=
          if 0 < req.modelParam.maxPromptLength then
            { req with
              inputs := FilterMessagesByTokenCount req.inputs
                req.modelParam.maxPromptLength }
          else req
        match p reqCopy with
        | (resp, some e) =>
          (resp, some ("fetch completion failed for provider " ++ provider ++ ": " ++ e))
        | (resp, none) => (resp, none)

/-- A chat provider whose non-streaming SDK call resolves to the fixed
outcome `sdkCall`: the dispatch target used to compose
`ProviderSetAPI.FetchCompletion` with `doNonStreaming`. -/
def chatNonStreamingProvider {χ γ δ : Type}
    (sdkCall : Option (ChatCompletion χ) × Option String)
    (debugBuilder : Option (Option (ChatCompletion χ) → Option String → Bool → δ))
    (outputsFrom : ChatCompletion χ → List γ) :
    FetchCompletionRequest → Option (FetchCompletionResponse γ δ) × Option String :=
  fun _ =>
    let r := doNonStreaming sdkCall debugBuilder outputsFrom
    (some r.1, r.2)

/-! ## Body scrubber (`debugclient`)

Go values decoded from JSON — and arbitrary `any` values passed to
`scrubAnyForDebug` — form a heap: maps and slices are reference nodes
(their `uintptr` identity is the address), primitives are immediate.  The
scrubber reads the heap and produces a pure result tree.  Fuel stands in
for the depth counter: fuel `maxScrubDepth + 1 - depth`, so fuel 0 is
exactly `depth > maxScrubDepth`. -/

def maxScrubDepth : Nat := 4096

def maskToken : String := "***"

def cycleToken : String := "<cycle>"

def depthToken : String := "<max-depth>"

def ommitedTextContentStr : String := "[omitted: llm text content]"

def ommitedEncryptedContentStr : String := "[omitted: encrypted content]"

def sensitiveKeys : List String :=
  ["authorization", "proxy-authorization", "api-key", "apikey", "api_key",
   "x-api-key"]

/-- Go `strings.Contains` (character-list based). -/
def goContainsSub (s sub : String) : Bool :=
  s.data.tails.any (fun t => sub.data.isPrefixOf t)

/-- `debugclient.containsSensitiveKey`. -/
def containsSensitiveKey (key : String) : Bool :=
  let lk := goToLower key
  sensitiveKeys.contains lk || goHasSuffix lk "_key" || goHasSuffix lk "-key"

def isBase64Char (r : Char) : Bool :=
  ('A' ≤ r && r ≤ 'Z') || ('a' ≤ r && r ≤ 'z') || ('0' ≤ r && r ≤ '9') ||
  r = '+' || r = '/' || r = '=' || r = '\n' || r = '\r'

/-- `debugclient.looksLikeBase64` (lengths are byte lengths, as Go's
`len`). -/
def looksLikeBase64 (s : String) : Bool :=
  if s.utf8ByteSize < 128 then false
  else if goContainsSub s "base64," then true
  else if ¬ s.data.all isBase64Char then false
  else if s.utf8ByteSize % 4 ≠ 0 then false
  else true

abbrev Addr := Nat

inductive GoVal where
  | vnull
  | vbool (b : Bool)
  | vnum (n : Int)
  | vstr (s : String)
  | vref (a : Addr)
deriving DecidableEq, Repr

inductive GoNode where
  | mapNode (entries : List (String × GoVal))
  | sliceNode (elems : List GoVal)
deriving DecidableEq, Repr

abbrev GoHeap := List (Addr × GoNode)

def goLookup (h : GoHeap) (a : Addr) : Option GoNode :=
  h.lookup a

structure ScrubContext where
  insideMessage : Bool := false
  parentKey : String := ""
deriving DecidableEq, Repr

/-- Scrubbed output: a plain JSON-like tree. -/
inductive SVal where
  | snull
  | sbool (b : Bool)
  | snum (n : Int)
  | sstr (s : String)
  | sarr (elems : List SVal)
  | sobj (entries : List (String × SVal))

/-- The `m["role"]` type-assertion in `scrubMap`. -/
def mapRoleValue (entries : List (String × GoVal)) : Option String :=
  match entries.lookup "role" with
  | some (GoVal.vstr s) => some s
  | _ => none

/-- The message-object detection at the top of `scrubMap`. -/
def mapDetectsMessage (ctxInside : Bool) (entries : List (String × GoVal)) : Bool :=
  ctxInside ||
    (match mapRoleValue entries with
     | some roleRaw =>
       let role := goToLower (goTrimSpace roleRaw)
       role = "user" || role = "assistant"
     | none => false)

/-- The `seg["type"]` extraction at the top of `scrubContentSegment`. -/
def segTypeOf (entries : List (String × GoVal)) : String :=
  match entries.lookup "type" with
  | some (GoVal.vstr s) => goToLower (goTrimSpace s)
  | _ => ""

def isTextualSegType (segType : String) : Bool :=
  segType = "input_text" || segType = "output_text" || segType = "text" ||
  segType = "message"

/-- `debugclient.scrubber.scrubString`. -/
def scrubString (strip : Bool) (ctx : ScrubContext) (str : String) : SVal :=
  if strip && looksLikeBase64 str then
    SVal.sstr ("[omitted: " ++ toString str.utf8ByteSize ++ " bytes base64 data]")
  else if strip && ctx.insideMessage then
    let lk := goToLower ctx.parentKey
    if lk = "text" || lk = "content" || lk = "delta" then
      SVal.sstr ommitedTextContentStr
    else if goContainsSub lk "encrypted" then
      SVal.sstr ommitedEncryptedContentStr
    else SVal.sstr str
  else SVal.sstr str

mutual

/-- `debugclient.scrubber.scrub`: depth guard, then dispatch on the dynamic
type.  Cycle detection (the `seen` path set with insert and deferred
delete) lives at the reference dereference, as in `scrubMap`/`scrubSlice`;
`pointerOf` is the address. -/
def scrubVal (h : GoHeap) (strip : Bool) :
    Nat → ScrubContext → List Addr → GoVal → SVal
  | 0, _, _, _ => SVal.sstr depthToken
  | f + 1, ctx, seen, v =>
    match v with
    | GoVal.vnull => SVal.snull
    | GoVal.vbool b => SVal.sbool b
    | GoVal.vnum n => SVal.snum n
    | GoVal.vstr s => scrubString strip ctx s
    | GoVal.vref a =>
      match goLookup h a with
      | some (GoNode.mapNode entries) =>
        if a ∈ seen then SVal.sstr cycleToken
        else SVal.sobj (scrubMapEntries h strip f ctx (a :: seen) entries)
      | some (GoNode.sliceNode elems) =>
        if a ∈ seen then SVal.sstr cycleToken
        else SVal.sarr (scrubSliceElems h strip f ctx (a :: seen) elems)
      | none => SVal.snull
termination_by f _ _ _ => (f, 0, 0)
decreasing_by
  all_goals
    first
    | exact Prod.Lex.right _ (Prod.Lex.right _ (by simp only [List.length_cons]; omega))
    | exact Prod.Lex.right _ (Prod.Lex.left _ _ (by omega))
    | exact Prod.Lex.left _ _ (by omega)
    | (rcases Nat.eq_zero_or_pos f with hf | hf
       · subst hf
         exact Prod.Lex.right _ (Prod.Lex.left _ _ (by omega))
       · exact Prod.Lex.left _ _ (by omega))

/-- Body of `debugclient.scrubber.scrubMap` after the cycle check: message
detection, then the per-entry loop.  `f` is the fuel of the entry values
(children sit one level deeper than the map). -/
def scrubMapEntries (h : GoHeap) (strip : Bool) (f : Nat) (ctx : ScrubContext)
    (seen : List Addr) (entries : List (String × GoVal)) :
    List (String × SVal) :=
  scrubMapLoop h strip f (mapDetectsMessage ctx.insideMessage entries) seen entries
termination_by (f, 7, 0)
decreasing_by
  all_goals
    first
    | exact Prod.Lex.right _ (Prod.Lex.right _ (by simp only [List.length_cons]; omega))
    | exact Prod.Lex.right _ (Prod.Lex.left _ _ (by omega))
    | exact Prod.Lex.left _ _ (by omega)
    | (rcases Nat.eq_zero_or_pos f with hf | hf
       · subst hf
         exact Prod.Lex.right _ (Prod.Lex.left _ _ (by omega))
       · exact Prod.Lex.left _ _ (by omega))

/-- The per-entry loop of `debugclient.scrubber.scrubMap`. -/
def scrubMapLoop (h : GoHeap) (strip : Bool) (f : Nat) (insideMessage : Bool)
    (seen : List Addr) : List (String × GoVal) → List (String × SVal)
  | [] => []
  | (k, v) :: rest =>
    let lk := goToLower k
    let out :=
      if containsSensitiveKey lk then SVal.sstr maskToken
      else
        let childCtx : ScrubContext := { insideMessage := insideMessage, parentKey := k }
        if strip && insideMessage && lk = "content" then
          scrubMessageContent h strip f childCtx seen v
        else if strip && (lk = "input" || lk = "prompt" || lk = "query") then
          scrubTopLevelText h strip f childCtx seen v
        else
          scrubVal h strip f childCtx seen v
    (k, out) :: scrubMapLoop h strip f insideMessage seen rest
termination_by l => (f, 6, l.length)
decreasing_by
  all_goals
    first
    | exact Prod.Lex.right _ (Prod.Lex.right _ (by simp only [List.length_cons]; omega))
    | exact Prod.Lex.right _ (Prod.Lex.left _ _ (by omega))
    | exact Prod.Lex.left _ _ (by omega)
    | (rcases Nat.eq_zero_or_pos f with hf | hf
       · subst hf
         exact Prod.Lex.right _ (Prod.Lex.left _ _ (by omega))
       · exact Prod.Lex.left _ _ (by omega))

/-- `debugclient.scrubber.scrubTopLevelText`: same depth, inside-message
context. -/
def scrubTopLevelText (h : GoHeap) (strip : Bool) (f : Nat) (ctx : ScrubContext)
    (seen : List Addr) (v : GoVal) : SVal :=
  scrubVal h strip f { ctx with insideMessage := true } seen v
termination_by (f, 5, 0)
decreasing_by
  all_goals
    first
    | exact Prod.Lex.right _ (Prod.Lex.right _ (by simp only [List.length_cons]; omega))
    | exact Prod.Lex.right _ (Prod.Lex.left _ _ (by omega))
    | exact Prod.Lex.left _ _ (by omega)
    | (rcases Nat.eq_zero_or_pos f with hf | hf
       · subst hf
         exact Prod.Lex.right _ (Prod.Lex.left _ _ (by omega))
       · exact Prod.Lex.left _ _ (by omega))

/-- The element loop of `debugclient.scrubber.scrubSlice` (children one
level deeper). -/
def scrubSliceElems (h : GoHeap) (strip : Bool) (f : Nat) (ctx : ScrubContext)
    (seen : List Addr) : List GoVal → List SVal
  | [] => []
  | v :: rest =>
    scrubVal h strip f ctx seen v :: scrubSliceElems h strip f ctx seen rest
termination_by l => (f, 6, l.length)
decreasing_by
  all_goals
    first
    | exact Prod.Lex.right _ (Prod.Lex.right _ (by simp only [List.length_cons]; omega))
    | exact Prod.Lex.right _ (Prod.Lex.left _ _ (by omega))
    | exact Prod.Lex.left _ _ (by omega)
    | (rcases Nat.eq_zero_or_pos f with hf | hf
       · subst hf
         exact Prod.Lex.right _ (Prod.Lex.left _ _ (by omega))
       · exact Prod.Lex.left _ _ (by omega))

/-- `debugclient.scrubber.scrubMessageContent`: with stripping disabled it
defers to `scrub` at the same depth; otherwise strings and unknown shapes
become the placeholder and arrays are walked segment-wise (no cycle
registration happens on this path, as in the source). -/
def scrubMessageContent (h : GoHeap) (strip : Bool) (f : Nat)
    (ctx : ScrubContext) (seen : List Addr) (v : GoVal) : SVal :=
  if !strip then scrubVal h strip f ctx seen v
  else
    match v with
    | GoVal.vstr _ => SVal.sstr ommitedTextContentStr
    | GoVal.vref a =>
      match goLookup h a with
      | some (GoNode.sliceNode elems) =>
        SVal.sarr (scrubMsgSegs h strip f ctx seen elems)
      | _ => SVal.sstr ommitedTextContentStr
    | _ => SVal.sstr ommitedTextContentStr
termination_by (f, 5, 0)
decreasing_by
  all_goals
    first
    | exact Prod.Lex.right _ (Prod.Lex.right _ (by simp only [List.length_cons]; omega))
    | exact Prod.Lex.right _ (Prod.Lex.left _ _ (by omega))
    | exact Prod.Lex.left _ _ (by omega)
    | (rcases Nat.eq_zero_or_pos f with hf | hf
       · subst hf
         exact Prod.Lex.right _ (Prod.Lex.left _ _ (by omega))
       · exact Prod.Lex.left _ _ (by omega))

/-- One segment of the loop inside `scrubMessageContent`: a map segment
goes through `scrubContentSegment` (its entries sit two levels below the
array), any other segment through `scrub` one level deeper. -/
def scrubMsgSeg (h : GoHeap) (strip : Bool) (f : Nat) (ctx : ScrubContext)
    (seen : List Addr) (seg : GoVal) : SVal :=
  match seg with
  | GoVal.vref b =>
    match goLookup h b with
    | some (GoNode.mapNode segEntries) =>
      SVal.sobj (scrubContentSegment h strip (f - 2) seen segEntries)
    | _ => scrubVal h strip (f - 1) ctx seen seg
  | _ => scrubVal h strip (f - 1) ctx seen seg
termination_by (f, 3, 0)
decreasing_by
  all_goals
    first
    | exact Prod.Lex.right _ (Prod.Lex.right _ (by simp only [List.length_cons]; omega))
    | exact Prod.Lex.right _ (Prod.Lex.left _ _ (by omega))
    | exact Prod.Lex.left _ _ (by omega)
    | (rcases Nat.eq_zero_or_pos f with hf | hf
       · subst hf
         exact Prod.Lex.right _ (Prod.Lex.left _ _ (by omega))
       · exact Prod.Lex.left _ _ (by omega))

/-- The segment loop inside `scrubMessageContent`. -/
def scrubMsgSegs (h : GoHeap) (strip : Bool) (f : Nat) (ctx : ScrubContext)
    (seen : List Addr) : List GoVal → List SVal
  | [] => []
  | seg :: rest =>
    scrubMsgSeg h strip f ctx seen seg :: scrubMsgSegs h strip f ctx seen rest
termination_by l => (f, 4, l.length)
decreasing_by
  all_goals
    first
    | exact Prod.Lex.right _ (Prod.Lex.right _ (by simp only [List.length_cons]; omega))
    | exact Prod.Lex.right _ (Prod.Lex.left _ _ (by omega))
    | exact Prod.Lex.left _ _ (by omega)
    | (rcases Nat.eq_zero_or_pos f with hf | hf
       · subst hf
         exact Prod.Lex.right _ (Prod.Lex.left _ _ (by omega))
       · exact Prod.Lex.left _ _ (by omega))

/-- `debugclient.scrubber.scrubContentSegment`: segment type detection,
then the per-entry loop.  `f` is the fuel of the entry values. -/
def scrubContentSegment (h : GoHeap) (strip : Bool) (f : Nat)
    (seen : List Addr) (segEntries : List (String × GoVal)) :
    List (String × SVal) :=
  scrubSegLoop h strip f (segTypeOf segEntries) seen segEntries
termination_by (f, 2, 0)
decreasing_by
  all_goals
    first
    | exact Prod.Lex.right _ (Prod.Lex.right _ (by simp only [List.length_cons]; omega))
    | exact Prod.Lex.right _ (Prod.Lex.left _ _ (by omega))
    | exact Prod.Lex.left _ _ (by omega)
    | (rcases Nat.eq_zero_or_pos f with hf | hf
       · subst hf
         exact Prod.Lex.right _ (Prod.Lex.left _ _ (by omega))
       · exact Prod.Lex.left _ _ (by omega))

/-- The per-entry loop of `debugclient.scrubber.scrubContentSegment`. -/
def scrubSegLoop (h : GoHeap) (strip : Bool) (f : Nat) (segType : String)
    (seen : List Addr) : List (String × GoVal) → List (String × SVal)
  | [] => []
  | (k, v) :: rest =>
    let lk := goToLower k
    let out :=
      if containsSensitiveKey lk then SVal.sstr maskToken
      else if strip && isTextualSegType segType && (lk = "text" || lk = "content") then
        SVal.sstr ommitedTextContentStr
      else if strip && isTextualSegType segType && goContainsSub lk "encrypted" then
        SVal.sstr ommitedEncryptedContentStr
      else
        scrubVal h strip f { insideMessage := true, parentKey := k } seen v
    (k, out) :: scrubSegLoop h strip f segType seen rest
termination_by l => (f, 1, l.length)
decreasing_by
  all_goals
    first
    | exact Prod.Lex.right _ (Prod.Lex.right _ (by simp only [List.length_cons]; omega))
    | exact Prod.Lex.right _ (Prod.Lex.left _ _ (by omega))
    | exact Prod.Lex.left _ _ (by omega)
    | (rcases Nat.eq_zero_or_pos f with hf | hf
       · subst hf
         exact Prod.Lex.right _ (Prod.Lex.left _ _ (by omega))
       · exact Prod.Lex.left _ _ (by omega))

end

/-- `debugclient.scrubAnyForDebug` / the scrub entry point of
`sanitizeBodyForDebug`: scrub from depth 0 with an empty context and an
empty identity set. -/
def ScrubAnyForDebug (h : GoHeap) (stripContent : Bool) (v : GoVal) : SVal :=
  scrubVal h stripContent (maxScrubDepth + 1) {} [] v

/-! ## Allocating model of the scrubber (for the no-input-mutation claim) -/

/-- `scrubString`, returning the bare string: in the allocating model
scrubbed strings stay plain Go strings. -/
def scrubStringStr (strip : Bool) (ctx : ScrubContext) (str : String) : String :=
  if strip && looksLikeBase64 str then
    "[omitted: " ++ toString str.utf8ByteSize ++ " bytes base64 data]"
  else if strip && ctx.insideMessage then
    let lk := goToLower ctx.parentKey
    if lk = "text" || lk = "content" || lk = "delta" then ommitedTextContentStr
    else if goContainsSub lk "encrypted" then ommitedEncryptedContentStr
    else str
  else str

/-- Allocation state of the scrub: the live heap (the input objects plus
the output objects built so far by `make`) and the next fresh address. -/
structure AllocSt where
  heap : GoHeap
  next : Addr
deriving DecidableEq, Repr

/-- Go `make(map[string]any, ...)` / `make([]any, 0, ...)`: a fresh node is
appended at the next fresh address; nothing already on the heap is
written. -/
def allocNode (st : AllocSt) (node : GoNode) : Addr × AllocSt :=
  (st.next, ⟨st.heap ++ [(st.next, node)], st.next + 1⟩)

mutual

/-- `debugclient.scrubber.scrub` in the allocating model: identical
control flow to `scrubVal`, but every output map and slice is built by
`allocNode` and the state is threaded through the recursion. -/
def scrubValA (strip : Bool) :
    Nat → ScrubContext → List Addr → GoVal → AllocSt → GoVal × AllocSt
  | 0, _, _, _, st => (GoVal.vstr depthToken, st)
  | f + 1, ctx, seen, v, st =>
    match v with
    | GoVal.vnull => (GoVal.vnull, st)
    | GoVal.vbool b => (GoVal.vbool b, st)
    | GoVal.vnum n => (GoVal.vnum n, st)
    | GoVal.vstr s => (GoVal.vstr (scrubStringStr strip ctx s), st)
    | GoVal.vref a =>
      match goLookup st.heap a with
      | some (GoNode.mapNode entries) =>
        if a ∈ seen then (GoVal.vstr cycleToken, st)
        else
          let p := scrubMapEntriesA strip f ctx (a :: seen) entries st
          let q := allocNode p.2 (GoNode.mapNode p.1)
          (GoVal.vref q.1, q.2)
      | some (GoNode.sliceNode elems) =>
        if a ∈ seen then (GoVal.vstr cycleToken, st)
        else
          let p := scrubSliceElemsA strip f ctx (a :: seen) elems st
          let q := allocNode p.2 (GoNode.sliceNode p.1)
          (GoVal.vref q.1, q.2)
      | none => (GoVal.vnull, st)
termination_by f _ _ _ _ => (f, 0, 0)
decreasing_by
  all_goals
    first
    | exact Prod.Lex.right _ (Prod.Lex.right _ (by simp only [List.length_cons]; omega))
    | exact Prod.Lex.right _ (Prod.Lex.left _ _ (by omega))
    | exact Prod.Lex.left _ _ (by omega)
    | (rcases Nat.eq_zero_or_pos f with hf | hf
       · subst hf
         exact Prod.Lex.right _ (Prod.Lex.left _ _ (by omega))
       · exact Prod.Lex.left _ _ (by omega))

/-- Allocating `scrubMap` body after the cycle check. -/
def scrubMapEntriesA (strip : Bool) (f : Nat) (ctx : ScrubContext)
    (seen : List Addr) (entries : List (String × GoVal)) (st : AllocSt) :
    List (String × GoVal) × AllocSt :=
  scrubMapLoopA strip f (mapDetectsMessage ctx.insideMessage entries) seen entries st
termination_by (f, 7, 0)
decreasing_by
  all_goals
    first
    | exact Prod.Lex.right _ (Prod.Lex.right _ (by simp only [List.length_cons]; omega))
    | exact Prod.Lex.right _ (Prod.Lex.left _ _ (by omega))
    | exact Prod.Lex.left _ _ (by omega)
    | (rcases Nat.eq_zero_or_pos f with hf | hf
       · subst hf
         exact Prod.Lex.right _ (Prod.Lex.left _ _ (by omega))
       · exact Prod.Lex.left _ _ (by omega))

/-- Allocating per-entry loop of `scrubMap`: each output entry is written
into the fresh output map only. -/
def scrubMapLoopA (strip : Bool) (f : Nat) (insideMessage : Bool)
    (seen : List Addr) : List (String × GoVal) → AllocSt → List (String × GoVal) × AllocSt
  | [], st => ([], st)
  | (k, v) :: rest, st =>
    let lk := goToLower k
    let out :=
      if containsSensitiveKey lk then (GoVal.vstr maskToken, st)
      else
        let childCtx : ScrubContext := { insideMessage := insideMessage, parentKey := k }
        if strip && insideMessage && lk = "content" then
          scrubMessageContentA strip f childCtx seen v st
        else if strip && (lk = "input" || lk = "prompt" || lk = "query") then
          scrubTopLevelTextA strip f childCtx seen v st
        else
          scrubValA strip f childCtx seen v st
    let restOut := scrubMapLoopA strip f insideMessage seen rest out.2
    ((k, out.1) :: restOut.1, restOut.2)
termination_by l => (f, 6, l.length)
decreasing_by
  all_goals
    first
    | exact Prod.Lex.right _ (Prod.Lex.right _ (by simp only [List.length_cons]; omega))
    | exact Prod.Lex.right _ (Prod.Lex.left _ _ (by omega))
    | exact Prod.Lex.left _ _ (by omega)
    | (rcases Nat.eq_zero_or_pos f with hf | hf
       · subst hf
         exact Prod.Lex.right _ (Prod.Lex.left _ _ (by omega))
       · exact Prod.Lex.left _ _ (by omega))

/-- Allocating `scrubTopLevelText`. -/
def scrubTopLevelTextA (strip : Bool) (f : Nat) (ctx : ScrubContext)
    (seen : List Addr) (v : GoVal) (st : AllocSt) : GoVal × AllocSt :=
  scrubValA strip f { ctx with insideMessage := true } seen v st
termination_by (f, 5, 0)
decreasing_by
  all_goals
    first
    | exact Prod.Lex.right _ (Prod.Lex.right _ (by simp only [List.length_cons]; omega))
    | exact Prod.Lex.right _ (Prod.Lex.left _ _ (by omega))
    | exact Prod.Lex.left _ _ (by omega)
    | (rcases Nat.eq_zero_or_pos f with hf | hf
       · subst hf
         exact Prod.Lex.right _ (Prod.Lex.left _ _ (by omega))
       · exact Prod.Lex.left _ _ (by omega))

/-- Allocating element loop of `scrubSlice`: elements are appended to the
fresh output slice only. -/
def scrubSliceElemsA (strip : Bool) (f : Nat) (ctx : ScrubContext)
    (seen : List Addr) : List GoVal → AllocSt → List GoVal × AllocSt
  | [], st => ([], st)
  | v :: rest, st =>
    let p := scrubValA strip f ctx seen v st
    let q := scrubSliceElemsA strip f ctx seen rest p.2
    (p.1 :: q.1, q.2)
termination_by l => (f, 6, l.length)
decreasing_by
  all_goals
    first
    | exact Prod.Lex.right _ (Prod.Lex.right _ (by simp only [List.length_cons]; omega))
    | exact Prod.Lex.right _ (Prod.Lex.left _ _ (by omega))
    | exact Prod.Lex.left _ _ (by omega)
    | (rcases Nat.eq_zero_or_pos f with hf | hf
       · subst hf
         exact Prod.Lex.right _ (Prod.Lex.left _ _ (by omega))
       · exact Prod.Lex.left _ _ (by omega))

/-- Allocating `scrubMessageContent`. -/
def scrubMessageContentA (strip : Bool) (f : Nat) (ctx : ScrubContext)
    (seen : List Addr) (v : GoVal) (st : AllocSt) : GoVal × AllocSt :=
  if !strip then scrubValA strip f ctx seen v st
  else
    match v with
    | GoVal.vstr _ => (GoVal.vstr ommitedTextContentStr, st)
    | GoVal.vref a =>
      match goLookup st.heap a with
      | some (GoNode.sliceNode elems) =>
        let p := scrubMsgSegsA strip f ctx seen elems st
        let q := allocNode p.2 (GoNode.sliceNode p.1)
        (GoVal.vref q.1, q.2)
      | _ => (GoVal.vstr ommitedTextContentStr, st)
    | _ => (GoVal.vstr ommitedTextContentStr, st)
termination_by (f, 5, 0)
decreasing_by
  all_goals
    first
    | exact Prod.Lex.right _ (Prod.Lex.right _ (by simp only [List.length_cons]; omega))
    | exact Prod.Lex.right _ (Prod.Lex.left _ _ (by omega))
    | exact Prod.Lex.left _ _ (by omega)
    | (rcases Nat.eq_zero_or_pos f with hf | hf
       · subst hf
         exact Prod.Lex.right _ (Prod.Lex.left _ _ (by omega))
       · exact Prod.Lex.left _ _ (by omega))

/-- Allocating single-segment step of the message-content loop. -/
def scrubMsgSegA (strip : Bool) (f : Nat) (ctx : ScrubContext)
    (seen : List Addr) (seg : GoVal) (st : AllocSt) : GoVal × AllocSt :=
  match seg with
  | GoVal.vref b =>
    match goLookup st.heap b with
    | some (GoNode.mapNode segEntries) =>
      let p := scrubContentSegmentA strip (f - 2) seen segEntries st
      let q := allocNode p.2 (GoNode.mapNode p.1)
      (GoVal.vref q.1, q.2)
    | _ => scrubValA strip (f - 1) ctx seen seg st
  | _ => scrubValA strip (f - 1) ctx seen seg st
termination_by (f, 3, 0)
decreasing_by
  all_goals
    first
    | exact Prod.Lex.right _ (Prod.Lex.right _ (by simp only [List.length_cons]; omega))
    | exact Prod.Lex.right _ (Prod.Lex.left _ _ (by omega))
    | exact Prod.Lex.left _ _ (by omega)
    | (rcases Nat.eq_zero_or_pos f with hf | hf
       · subst hf
         exact Prod.Lex.right _ (Prod.Lex.left _ _ (by omega))
       · exact Prod.Lex.left _ _ (by omega))

/-- Allocating segment loop of `scrubMessageContent`. -/
def scrubMsgSegsA (strip : Bool) (f : Nat) (ctx : ScrubContext)
    (seen : List Addr) : List GoVal → AllocSt → List GoVal × AllocSt
  | [], st => ([], st)
  | seg :: rest, st =>
    let p := scrubMsgSegA strip f ctx seen seg st
    let q := scrubMsgSegsA strip f ctx seen rest p.2
    (p.1 :: q.1, q.2)
termination_by l => (f, 4, l.length)
decreasing_by
  all_goals
    first
    | exact Prod.Lex.right _ (Prod.Lex.right _ (by simp only [List.length_cons]; omega))
    | exact Prod.Lex.right _ (Prod.Lex.left _ _ (by omega))
    | exact Prod.Lex.left _ _ (by omega)
    | (rcases Nat.eq_zero_or_pos f with hf | hf
       · subst hf
         exact Prod.Lex.right _ (Prod.Lex.left _ _ (by omega))
       · exact Prod.Lex.left _ _ (by omega))

/-- Allocating `scrubContentSegment`. -/
def scrubContentSegmentA (strip : Bool) (f : Nat) (seen : List Addr)
    (segEntries : List (String × GoVal)) (st : AllocSt) :
    List (String × GoVal) × AllocSt :=
  scrubSegLoopA strip f (segTypeOf segEntries) seen segEntries st
termination_by (f, 2, 0)
decreasing_by
  all_goals
    first
    | exact Prod.Lex.right _ (Prod.Lex.right _ (by simp only [List.length_cons]; omega))
    | exact Prod.Lex.right _ (Prod.Lex.left _ _ (by omega))
    | exact Prod.Lex.left _ _ (by omega)
    | (rcases Nat.eq_zero_or_pos f with hf | hf
       · subst hf
         exact Prod.Lex.right _ (Prod.Lex.left _ _ (by omega))
       · exact Prod.Lex.left _ _ (by omega))

/-- Allocating per-entry loop of `scrubContentSegment`. -/
def scrubSegLoopA (strip : Bool) (f : Nat) (segType : String)
    (seen : List Addr) : List (String × GoVal) → AllocSt → List (String × GoVal) × AllocSt
  | [], st => ([], st)
  | (k, v) :: rest, st =>
    let lk := goToLower k
    let out :=
      if containsSensitiveKey lk then (GoVal.vstr maskToken, st)
      else if strip && isTextualSegType segType && (lk = "text" || lk = "content") then
        (GoVal.vstr ommitedTextContentStr, st)
      else if strip && isTextualSegType segType && goContainsSub lk "encrypted" then
        (GoVal.vstr ommitedEncryptedContentStr, st)
      else
        scrubValA strip f { insideMessage := true, parentKey := k } seen v st
    let restOut := scrubSegLoopA strip f segType seen rest out.2
    ((k, out.1) :: restOut.1, restOut.2)
termination_by l => (f, 1, l.length)
decreasing_by
  all_goals
    first
    | exact Prod.Lex.right _ (Prod.Lex.right _ (by simp only [List.length_cons]; omega))
    | exact Prod.Lex.right _ (Prod.Lex.left _ _ (by omega))
    | exact Prod.Lex.left _ _ (by omega)
    | (rcases Nat.eq_zero_or_pos f with hf | hf
       · subst hf
         exact Prod.Lex.right _ (Prod.Lex.left _ _ (by omega))
       · exact Prod.Lex.left _ _ (by omega))

end

/-- The allocating scrub entry point: scrub `v` on heap `h`, allocating
output objects from address `next` on. -/
def ScrubAnyForDebugA (h : GoHeap) (next : Addr) (stripContent : Bool)
    (v : GoVal) : GoVal × AllocSt :=
  scrubValA stripContent (maxScrubDepth + 1) {} [] v ⟨h, next⟩

/-- The heap references occurring in a value. -/
def valRefs : GoVal → List Addr
  | GoVal.vref a => [a]
  | _ => []

/-- The heap references of the values of an entry list. -/
def entryRefs (l : List (String × GoVal)) : List Addr :=
  l.foldr (fun kv acc => valRefs kv.2 ++ acc) []

/-- The heap references of a value list. -/
def listRefs (l : List GoVal) : List Addr :=
  l.foldr (fun v acc => valRefs v ++ acc) []

/-- One scrub step is allocation-clean: the heap is only extended, the
address counter only grows, and every reference it returns is fresh
(allocated within the step). -/
def allocOK (st : AllocSt) (rs : List Addr) (st2 : AllocSt) : Prop :=
  (∃ t, st2.heap = st.heap ++ t) ∧ st.next ≤ st2.next ∧
    ∀ r ∈ rs, st.next ≤ r ∧ r < st2.next

/-! ## Derived definitions used in the statements -/

/-- Concatenation of a list of strings, in order (Go byte-stream
concatenation). -/
def concatAll (l : List String) : String :=
  l.foldl (fun a b => a ++ b) ""

/-- The budget-limited keep-loop, phrased as a cumulative take-while over
the items older than the newest (newest-first order): keep while the
running total plus the next item's count stays within the budget. -/
def budgetSuffix (maxTokenCount : Int) : List InputUnion → Int → List InputUnion
  | [], _ => []
  | m :: rest, total =>
    let tok : Int := countHeuristicTokensInInputUnion m
    if total + tok ≤ maxTokenCount then m :: budgetSuffix maxTokenCount rest (total + tok)
    else []

/-- Decision procedure for the frozen wording of the orphan invariant: does
the list contain a ToolOutput whose trimmed CallID is non-empty and has no
matching ToolCall strictly before it? -/
def orphanByPriorAux : List InputUnion → List String → Bool
  | [], _ => false
  | u :: rest, seenIds =>
    (match toolOutputOf u with
     | some o =>
       let c := goTrimSpace o.callId
       decide (c ≠ "" ∧ c ∉ seenIds)
     | none => false) ||
    orphanByPriorAux rest
      (match toolCallOf u with
       | some call =>
         let c := goTrimSpace call.callId
         if c = "" then seenIds else c :: seenIds
       | none => seenIds)

def containsOrphanByPrior (l : List InputUnion) : Bool :=
  orphanByPriorAux l []

def isMaskStr : SVal → Bool
  | SVal.sstr s => s == maskToken
  | _ => false

mutual

/-- Every object anywhere in a scrubbed value binds each sensitive key to
the mask token. -/
def maskedOK : SVal → Bool
  | SVal.sobj kvs => maskedOKEntries kvs
  | SVal.sarr xs => maskedOKList xs
  | _ => true

def maskedOKEntries : List (String × SVal) → Bool
  | [] => true
  | (k, v) :: rest =>
    (!containsSensitiveKey (goToLower k) || isMaskStr v) && maskedOK v &&
      maskedOKEntries rest

def maskedOKList : List SVal → Bool
  | [] => true
  | v :: rest => maskedOK v && maskedOKList rest

end

/-- A linear heap: address `i < n` holds the map `{x: ref (i+1)}`; a value
nested `n` maps deep. -/
def chainHeap : Nat → GoHeap
  | 0 => []
  | n + 1 => (n, GoNode.mapNode [("x", GoVal.vref (n + 1))]) :: chainHeap n

/-- The scrub image of a deep chain: `f` nested singleton objects around
the depth token. -/
def nestDepth : Nat → SVal
  | 0 => SVal.sstr depthToken
  | f + 1 => SVal.sobj [("x", nestDepth f)]

/-! ## Concrete example values used by counterexamples and witnesses -/

def exUserMsg (s : String) : InputUnion :=
  { kind := InputKind.inputMessage
    inputMessage := some { role := "user"
                           contents := [{ kind := ContentItemKind.text
                                          textItem := some { text := s } }] } }

def exFnCall (cid : String) : InputUnion :=
  { kind := InputKind.functionToolCall
    functionToolCall := some { type := ToolType.function, id := cid
                               callId := cid, name := "f", arguments := "" } }

def exFnOut (cid : String) : InputUnion :=
  { kind := InputKind.functionToolOutput
    functionToolOutput := some { type := ToolType.function, callId := cid
                                 contents := [{ kind := ContentItemKind.text
                                                textItem := some { text := "res" } }] } }

/-- A reasoning message carrying only plaintext thinking — no encrypted
content. -/
def exPlainReasoning : InputUnion :=
  { kind := InputKind.reasoningMessage
    reasoningMessage := some { thinking := ["chain"] } }

/-- Heap for `{role: user, content: {api_key: secret}}`. -/
def exMsgHeap : GoHeap :=
  [(0, GoNode.mapNode [("role", GoVal.vstr "user"), ("content", GoVal.vref 1)]),
   (1, GoNode.mapNode [("api_key", GoVal.vstr "secret")])]

/-- Heap with a self-referencing map `{self: <itself>}`. -/
def exCycleHeap : GoHeap :=
  [(0, GoNode.mapNode [("self", GoVal.vref 0)])]

/-- A configured chat provider: params present, vendor client cached. -/
def exConfiguredChat : OpenAIChatCompletionsAPI :=
  { providerParam := some { name := "p", sdkType := "openaiChatCompletions"
                            apiKey := "k", origin := "https://x" }
    client := some () }

def exReq : FetchCompletionRequest :=
  { modelParam := { name := "m" }, inputs := [exUserMsg "hi"] }

def exChatProvider :
    FetchCompletionRequest →
      Option (FetchCompletionResponse Unit Unit) × Option String :=
  chatNonStreamingProvider (χ := Unit) (none, some "boom") none (fun _ => [])

/-! ## Theorems -/

/-! ### C5 — buffered streamer preserves the written byte sequence -/

theorem foldl_append_eq (l : List String) :
    ∀ s : String, l.foldl (fun a b => a ++ b) s = s ++ concatAll l := by
  induction l with
  | nil => intro s; simp [concatAll]
  | cons a rest ih =>
    intro s
    simp only [List.foldl_cons, concatAll]
    rw [ih, ih ("" ++ a)]
    simp [String.append_assoc]

theorem concatAll_cons (a : String) (l : List String) :
    concatAll (a :: l) = a ++ concatAll l := by
  simp only [concatAll, List.foldl_cons]
  rw [foldl_append_eq]
  simp [concatAll]

theorem concatAll_snoc (l : List String) (s : String) :
    concatAll (l ++ [s]) = concatAll l ++ s := by
  simp [concatAll, List.foldl_append]

theorem streamerWrites_cons_write (c : String) (rest : List StreamOp) :
    streamerWrites (StreamOp.write c :: rest) = c :: streamerWrites rest := by
  simp [streamerWrites]

theorem streamerWrites_cons_tick (rest : List StreamOp) :
    streamerWrites (StreamOp.tick :: rest) = streamerWrites rest := by
  simp [streamerWrites]

theorem runStreamerOps_concat (maxSize : Int) (ops : List StreamOp) :
    ∀ st : BufferedStreamerState,
      concatAll (runStreamerOps maxSize ops st).emitted ++
          (runStreamerOps maxSize ops st).buf =
        concatAll st.emitted ++ st.buf ++ concatAll (streamerWrites ops) := by
  induction ops with
  | nil =>
    intro st
    simp [runStreamerOps, streamerWrites, concatAll]
  | cons op rest ih =>
    intro st
    cases op with
    | write chunk =>
      rw [runStreamerOps, streamerWrites_cons_write, concatAll_cons]
      unfold streamerWrite
      by_cases hsz : maxSize ≤ ((st.buf ++ chunk).utf8ByteSize : Int)
      · rw [if_pos hsz, ih]
        simp [concatAll_snoc, String.append_assoc]
      · rw [if_neg hsz, ih]
        simp [String.append_assoc]
    | tick =>
      rw [runStreamerOps, streamerWrites_cons_tick]
      unfold streamerTick
      by_cases hb : st.buf.utf8ByteSize > 0
      · rw [if_pos hb, ih]
        simp [concatAll_snoc, String.append_assoc]
      · rw [if_neg hb, ih]

theorem streamerFlush_drains (st : BufferedStreamerState) :
    concatAll (streamerFlush st).emitted = concatAll st.emitted ++ st.buf ∧
      (streamerFlush st).buf = "" := by
  unfold streamerFlush
  by_cases hb : st.buf.utf8ByteSize > 0
  · rw [if_pos hb]
    simp [concatAll_snoc]
  · have hempty : st.buf = "" := by
      cases hbuf : st.buf with
      | mk data =>
        cases data with
        | nil => rfl
        | cons c cs =>
          exfalso
          apply hb
          rw [hbuf]
          have hc := Char.utf8Size_pos c
          simp [String.utf8ByteSize, String.utf8ByteSize.go]
          omega
    rw [if_neg hb, hempty]
    simp

/-- C5: for any interleaving of `write` calls and timer ticks followed by a
single `flush`, the concatenation of the strings passed to the emit
callback — across size-triggered, time-triggered and final flushes — equals
the concatenation of the written chunks, in order, and the buffer ends
empty. -/
theorem bufferedStreamer_preserves_written_stream (maxSize : Int)
    (ops : List StreamOp) :
    concatAll (streamerRun maxSize ops).emitted = concatAll (streamerWrites ops) ∧
      (streamerRun maxSize ops).buf = "" := by
  unfold streamerRun
  have hrun := runStreamerOps_concat (resolveFlushChunkSize maxSize) ops {}
  have hflush := streamerFlush_drains (runStreamerOps (resolveFlushChunkSize maxSize) ops {})
  refine ⟨?_, hflush.2⟩
  rw [hflush.1, hrun]
  simp [concatAll]

/-! ### C2 — prompt-filter truncation phase -/

theorem filterNewestFirstLoop_acc_ne (maxTokenCount : Int) :
    ∀ (rest : List InputUnion) (total : Int) (acc : List InputUnion),
      acc ≠ [] →
      filterNewestFirstLoop maxTokenCount rest total acc =
        acc ++ budgetSuffix maxTokenCount rest total := by
  intro rest
  induction rest with
  | nil => intro total acc _; simp [filterNewestFirstLoop, budgetSuffix]
  | cons m rest ih =>
    intro total acc hacc
    rw [filterNewestFirstLoop, budgetSuffix]
    by_cases hle : total + (countHeuristicTokensInInputUnion m : Int) ≤ maxTokenCount
    · rw [if_pos (Or.inl hle), if_neg (by omega), if_pos hle]
      rw [ih _ (acc ++ [m]) (by simp)]
      simp
    · rw [if_neg (by simp [hle, hacc]), if_neg hle]
      simp

theorem filterNewestFirstLoop_start (maxTokenCount : Int) (newest : InputUnion)
    (restRev : List InputUnion) :
    filterNewestFirstLoop maxTokenCount (newest :: restRev) 0 [] =
      newest ::
        (if maxTokenCount < (countHeuristicTokensInInputUnion newest : Int) then []
         else budgetSuffix maxTokenCount restRev
           (countHeuristicTokensInInputUnion newest)) := by
  rw [filterNewestFirstLoop]
  by_cases hgt : maxTokenCount < (countHeuristicTokensInInputUnion newest : Int)
  · rw [if_pos (Or.inr rfl), if_pos (by omega), if_pos hgt]
    simp
  · rw [if_pos (Or.inr rfl), if_neg (by omega), if_neg hgt]
    simp only [List.nil_append, zero_add]
    rw [filterNewestFirstLoop_acc_ne _ _ _ [newest] (by simp)]
    simp

theorem budgetSuffix_isTake (maxTokenCount : Int) :
    ∀ (l : List InputUnion) (total : Int),
      ∃ n, n ≤ l.length ∧ budgetSuffix maxTokenCount l total = l.take n := by
  intro l
  induction l with
  | nil => intro total; exact ⟨0, by simp, rfl⟩
  | cons m rest ih =>
    intro total
    rw [budgetSuffix]
    by_cases hle : total + (countHeuristicTokensInInputUnion m : Int) ≤ maxTokenCount
    · obtain ⟨n, hn, heq⟩ := ih (total + (countHeuristicTokensInInputUnion m : Int))
      refine ⟨n + 1, by simp [hn], ?_⟩
      rw [if_pos hle, heq]
      simp
    · exact ⟨0, by simp, by rw [if_neg hle]; simp⟩

theorem reverse_take_reverse {α : Type} (l : List α) (n : Nat) :
    (l.reverse.take n).reverse = l.drop (l.length - n) := by
  rw [← List.rtake_eq_reverse_take_reverse, List.rtake]

/-- C2 (amended): the token-truncation phase of
`FilterMessagesByTokenCount` scans newest-first, always keeps the newest
item (so its result is non-empty, and is exactly the newest item alone when
that item exceeds the budget), keeps further items only while the running
token total plus the next item's count stays within the budget, and yields
a chronological suffix of the input.  The filter's overall output is that
truncation followed by orphan tool-output pruning, which may drop further
items — including the newest — so the overall result can be smaller or even
empty. -/
theorem FilterMessagesByTokenCount_spec (messages rest2 : List InputUnion)
    (newest : InputUnion) (maxTokenCount : Int)
    (hdec : messages = rest2 ++ [newest]) :
    FilterMessagesByTokenCount messages maxTokenCount =
        pruneOrphanToolOutputs (truncateByTokenCount messages maxTokenCount) ∧
      truncateByTokenCount messages maxTokenCount =
        (if maxTokenCount < (countHeuristicTokensInInputUnion newest : Int) then []
         else budgetSuffix maxTokenCount rest2.reverse
           (countHeuristicTokensInInputUnion newest)).reverse ++ [newest] ∧
      truncateByTokenCount messages maxTokenCount ≠ [] ∧
      (truncateByTokenCount messages maxTokenCount).getLast? = some newest ∧
      (maxTokenCount < (countHeuristicTokensInInputUnion newest : Int) →
        truncateByTokenCount messages maxTokenCount = [newest]) ∧
      (∃ k, truncateByTokenCount messages maxTokenCount = messages.drop k) := by
  have hne : messages ≠ [] := by simp [hdec]
  have hrev : messages.reverse = newest :: rest2.reverse := by simp [hdec]
  have htr : truncateByTokenCount messages maxTokenCount =
      (if maxTokenCount < (countHeuristicTokensInInputUnion newest : Int) then []
       else budgetSuffix maxTokenCount rest2.reverse
         (countHeuristicTokensInInputUnion newest)).reverse ++ [newest] := by
    unfold truncateByTokenCount
    rw [hrev, filterNewestFirstLoop_start]
    simp
  refine ⟨by rw [FilterMessagesByTokenCount, if_neg hne], htr, ?_, ?_, ?_, ?_⟩
  · rw [htr]; simp
  · rw [htr]; simp
  · intro hgt
    rw [htr, if_pos hgt]
    simp
  · by_cases hgt : maxTokenCount < (countHeuristicTokensInInputUnion newest : Int)
    · refine ⟨rest2.length, ?_⟩
      rw [htr, if_pos hgt, hdec]
      simp
    · obtain ⟨n, hn, heq⟩ := budgetSuffix_isTake maxTokenCount rest2.reverse
        (countHeuristicTokensInInputUnion newest)
      refine ⟨rest2.length - n, ?_⟩
      rw [htr, if_neg hgt, heq, reverse_take_reverse, hdec]
      rw [List.drop_append_of_le_length (by omega)]

/-- C2, counterexample to the frozen wording: a non-empty input and a
positive budget for which `FilterMessagesByTokenCount` returns the empty
list — the newest (only) item is an orphan tool output and is removed by
the pruning step. -/
theorem FilterMessagesByTokenCount_can_return_empty :
    (([exFnOut "c1"] : List InputUnion) ≠ [] ∧ (0 : Int) < 5) ∧
      FilterMessagesByTokenCount [exFnOut "c1"] 5 = [] := by
  refine ⟨⟨by decide, by decide⟩, by rfl⟩

theorem FilterMessagesByTokenCount_spec_witness :
    truncateByTokenCount [exUserMsg "A", exUserMsg "B"] 10 ≠ [] ∧
      (truncateByTokenCount [exUserMsg "A", exUserMsg "B"] 10).getLast? =
        some (exUserMsg "B") :=
  ⟨(FilterMessagesByTokenCount_spec [exUserMsg "A", exUserMsg "B"] [exUserMsg "A"]
      (exUserMsg "B") 10 rfl).2.2.1,
   (FilterMessagesByTokenCount_spec [exUserMsg "A", exUserMsg "B"] [exUserMsg "A"]
      (exUserMsg "B") 10 rfl).2.2.2.1⟩

/-! ### C3 — orphan tool-output pruning -/

theorem toolCallOf_toolOutputOf_disjoint (u : InputUnion) (c : ToolCall)
    (hc : toolCallOf u = some c) : toolOutputOf u = none := by
  unfold toolCallOf at hc
  unfold toolOutputOf
  cases hk : u.kind <;> rw [hk] at hc <;> simp_all

theorem mem_collectCallIDs (l : List InputUnion) (c : String) :
    c ∈ collectCallIDs l ↔
      ∃ v ∈ l, ∃ call : ToolCall, toolCallOf v = some call ∧
        goTrimSpace call.callId = c ∧ c ≠ "" := by
  unfold collectCallIDs
  rw [List.mem_filterMap]
  constructor
  · rintro ⟨v, hv, hsome⟩
    match hcall : toolCallOf v with
    | none => rw [hcall] at hsome; simp at hsome
    | some call =>
      rw [hcall] at hsome
      simp only at hsome
      by_cases hid : goTrimSpace call.callId = ""
      · rw [if_pos hid] at hsome; simp at hsome
      · rw [if_neg hid] at hsome
        simp at hsome
        exact ⟨v, hv, call, hcall, hsome, by rw [← hsome]; exact hid⟩
  · rintro ⟨v, hv, call, hcall, hid, hne⟩
    refine ⟨v, hv, ?_⟩
    rw [hcall]
    simp only
    rw [if_neg (by rw [hid]; exact hne), hid]

theorem pruneOrphanToolOutputs_eq_filter (l : List InputUnion) :
    pruneOrphanToolOutputs l =
      l.filter (fun in_ =>
        match toolOutputOf in_ with
        | none => true
        | some toolOut =>
          let callID := goTrimSpace toolOut.callId
          callID = "" ∨ callID ∈ collectCallIDs l) := by
  unfold pruneOrphanToolOutputs
  by_cases hl : l = []
  · rw [if_pos hl, hl]; rfl
  · rw [if_neg hl]

theorem toolCall_mem_prune (l : List InputUnion) (v : InputUnion) (c : ToolCall)
    (hv : v ∈ l) (hc : toolCallOf v = some c) :
    v ∈ pruneOrphanToolOutputs l := by
  rw [pruneOrphanToolOutputs_eq_filter, List.mem_filter]
  refine ⟨hv, ?_⟩
  rw [toolCallOf_toolOutputOf_disjoint v c hc]

/-- C3 (amended): the prompt filter's output contains no ToolOutput whose
trimmed callId is non-empty and has no matching ToolCall with the same
trimmed callId among the surviving items (the match may sit anywhere in the
surviving sequence, not only before the output); and the pruning step never
drops a ToolOutput whose trimmed callId is empty. -/
theorem prompt_filter_no_surviving_orphans :
    (∀ (messages : List InputUnion) (maxTokenCount : Int) (u : InputUnion)
        (o : ToolOutput),
      u ∈ FilterMessagesByTokenCount messages maxTokenCount →
      toolOutputOf u = some o →
      goTrimSpace o.callId ≠ "" →
      ∃ v ∈ FilterMessagesByTokenCount messages maxTokenCount,
        ∃ c : ToolCall, toolCallOf v = some c ∧
          goTrimSpace c.callId = goTrimSpace o.callId) ∧
    (∀ (l : List InputUnion) (u : InputUnion) (o : ToolOutput),
      u ∈ l → toolOutputOf u = some o → goTrimSpace o.callId = "" →
      u ∈ pruneOrphanToolOutputs l) := by
  constructor
  · intro messages maxTokenCount u o hu ho hne
    by_cases hmsg : messages = []
    · rw [hmsg] at hu; simp [FilterMessagesByTokenCount] at hu
    · rw [FilterMessagesByTokenCount, if_neg hmsg] at hu ⊢
      set t := truncateByTokenCount messages maxTokenCount with ht
      rw [pruneOrphanToolOutputs_eq_filter, List.mem_filter] at hu
      obtain ⟨hut, hp⟩ := hu
      rw [ho] at hp
      simp only [decide_eq_true_eq] at hp
      have hid : goTrimSpace o.callId ∈ collectCallIDs t := by
        rcases hp with h | h
        · exact absurd h hne
        · exact h
      rw [mem_collectCallIDs] at hid
      obtain ⟨v, hv, call, hcall, hcid, _⟩ := hid
      exact ⟨v, toolCall_mem_prune t v call hv hcall, call, hcall, hcid⟩
  · intro l u o hu ho hid
    rw [pruneOrphanToolOutputs_eq_filter, List.mem_filter]
    refine ⟨hu, ?_⟩
    rw [ho]
    simp [hid]

/-- C3, counterexample to the frozen wording: with a surviving ToolOutput
whose only matching ToolCall comes later in the sequence, the filter keeps
the output even though no *prior* surviving ToolCall matches it. -/
theorem prompt_filter_keeps_orphan_by_prior :
    FilterMessagesByTokenCount [exFnOut "c1", exFnCall "c1"] 100 =
        [exFnOut "c1", exFnCall "c1"] ∧
      containsOrphanByPrior
        (FilterMessagesByTokenCount [exFnOut "c1", exFnCall "c1"] 100) = true := by
  refine ⟨by rfl, by rfl⟩

theorem prompt_filter_no_surviving_orphans_witness :
    ∃ v ∈ FilterMessagesByTokenCount [exFnCall "c1", exFnOut "c1"] 100,
      ∃ c : ToolCall, toolCallOf v = some c ∧
        goTrimSpace c.callId =
          goTrimSpace (({ type := ToolType.function, callId := "c1"
                          contents := [{ kind := ContentItemKind.text
                                         textItem := some { text := "res" } }] } :
                        ToolOutput)).callId :=
  prompt_filter_no_surviving_orphans.1 [exFnCall "c1", exFnOut "c1"] 100
    (exFnOut "c1") _ (by decide) rfl (by decide)

/-! ### C4 — Anthropic: tool-result turn with no reasoning forces thinking
off -/

theorem countAnthropicReasoning_zero (inputs : List InputUnion)
    (hnone : ∀ u ∈ inputs, u.kind ≠ InputKind.reasoningMessage) :
    countAnthropicReasoning inputs = (0, 0, 0) := by
  unfold countAnthropicReasoning
  induction inputs with
  | nil => rfl
  | cons u rest ih =>
    have hu : u.kind ≠ InputKind.reasoningMessage := hnone u (by simp)
    have hrest : ∀ v ∈ rest, v.kind ≠ InputKind.reasoningMessage := by
      intro v hv
      exact hnone v (by simp [hv])
    simp only [List.foldl_cons]
    rw [if_pos hu]
    exact ih hrest

/-- C4: if the inputs contain no reasoning messages and the last
user-authored item (user input message, or function/custom tool output) is
a tool result, the Anthropic request has thinking disabled, whatever
thinking `ModelParam.Reasoning` requested. -/
theorem anthropic_thinking_forced_off_on_tool_result
    (inputs : List InputUnion) (mp : ModelParam)
    (params : AnthropicMessageParams)
    (hfresh : params.thinking = none)
    (hnone : ∀ u ∈ inputs, u.kind ≠ InputKind.reasoningMessage)
    (htool : (findLastUserMessageIndex inputs).2 = true) :
    (applyAnthropicThinkingPolicy params mp
      (analyzeAnthropicThinkingBehavior inputs)).thinking = none := by
  have hne : inputs ≠ [] := by
    intro hnil
    rw [hnil] at htool
    simp [findLastUserMessageIndex, findLastUserScan, List.enum] at htool
  have hcounts := countAnthropicReasoning_zero inputs hnone
  have hanalysis : (analyzeAnthropicThinkingBehavior inputs).override =
      ThinkingOverride.forceDisabled ∧
      (analyzeAnthropicThinkingBehavior inputs).signedOrRedactedReasoning = 0 := by
    unfold analyzeAnthropicThinkingBehavior
    rw [if_neg hne, hcounts]
    simp [htool]
  unfold applyAnthropicThinkingPolicy
  rw [hanalysis.1]
  cases htemp : mp.temperature <;> simp [htemp, hfresh]


/-! ### C1 — OpenAI Responses reasoning-input policy -/

/-- C1: the request builder `toOpenAIResponsesInput` forwards a reasoning
message that has no encrypted content as a reasoning item carrying its
plaintext thinking — one reasoning item, not zero — while the (uncalled)
`sanitizeReasoningInputs` would have dropped it as the claim describes. -/
theorem responses_builder_keeps_unencrypted_reasoning :
    toOpenAIResponsesInput [exPlainReasoning] =
        [ResponseInputItem.reasoning
          { id := "", status := "completed", encryptedContent := none
            summary := [], content := [{ text := "chain" }] }] ∧
      sanitizeReasoningInputs [exPlainReasoning] = [] :=
  ⟨rfl, rfl⟩

/-! ### C9 — SetProviderAPIKey with an empty key -/

/-- C9: for an OpenAI Chat Completions provider with a cached client,
`ProviderSetAPI.SetProviderAPIKey` with a key that trims to empty returns
the adapter's "invalid apikey" error and leaves the cached client in
place — it neither de-initializes nor succeeds. -/
theorem setProviderAPIKey_empty_key_errors_without_deinit :
    setProviderAPIKeyForChatProvider exConfiguredChat "   " =
        (exConfiguredChat,
          some "openai chat completions api LLM: invalid apikey provided") ∧
      exConfiguredChat.client = some () :=
  ⟨rfl, rfl⟩

/-! ### C8 — partial response together with a wrapped transport error -/

/-- C8: when the adapter's SDK call fails, the registry's `FetchCompletion`
returns the adapter's partial response — carrying the usage computed from
whatever the SDK returned, the SDK error message, and the debug details —
simultaneously with a non-nil error prefixed by
"fetch completion failed for provider <name>: ". -/
theorem fetch_completion_partial_response_on_transport_error
    {χ γ δ : Type}
    (sdkResp : Option (ChatCompletion χ)) (e : String)
    (debugBuilder : Option (Option (ChatCompletion χ) → Option String → Bool → δ))
    (outputsFrom : ChatCompletion χ → List γ)
    (providers : List (String ×
      (FetchCompletionRequest → Option (FetchCompletionResponse γ δ) × Option String)))
    (name : String) (req : FetchCompletionRequest)
    (hname : name ≠ "") (hinputs : req.inputs ≠ [])
    (hmodel : req.modelParam.name ≠ "")
    (hlookup : providers.lookup name =
      some (chatNonStreamingProvider (sdkResp, some e) debugBuilder outputsFrom)) :
    (ProviderSetFetchCompletion providers name (some req)).2 =
        some ("fetch completion failed for provider " ++ name ++ ": " ++ e) ∧
      (ProviderSetFetchCompletion providers name (some req)).1 =
        some (doNonStreaming (sdkResp, some e) debugBuilder outputsFrom).1 ∧
      (doNonStreaming (sdkResp, some e) debugBuilder outputsFrom).1.usage =
        some (usageFromOpenAIChatCompletion sdkResp) ∧
      (doNonStreaming (sdkResp, some e) debugBuilder outputsFrom).1.error =
        some { message := e } ∧
      (doNonStreaming (sdkResp, some e) debugBuilder outputsFrom).1.debugDetails =
        debugBuilder.map (fun b => b sdkResp (some e) (chatIsNilResp sdkResp)) := by
  have hcond : ¬(name = "" ∨ req.inputs = [] ∨ req.modelParam.name = "") := by
    push_neg
    exact ⟨hname, hinputs, hmodel⟩
  have hmain : ProviderSetFetchCompletion providers name (some req) =
      (some (doNonStreaming (sdkResp, some e) debugBuilder outputsFrom).1,
        some ("fetch completion failed for provider " ++ name ++ ": " ++ e)) := by
    simp only [ProviderSetFetchCompletion]
    rw [if_neg hcond, hlookup]
    rfl
  refine ⟨by rw [hmain], by rw [hmain], ?_, ?_, ?_⟩ <;> rfl

theorem fetch_completion_partial_response_witness :
    (ProviderSetFetchCompletion [("p1", exChatProvider)] "p1" (some exReq)).2 =
        some ("fetch completion failed for provider " ++ "p1" ++ ": " ++ "boom") ∧
      (ProviderSetFetchCompletion [("p1", exChatProvider)] "p1" (some exReq)).1 =
        some (doNonStreaming (χ := Unit) (γ := Unit) (δ := Unit)
          (none, some "boom") none (fun _ => [])).1 :=
  ⟨(fetch_completion_partial_response_on_transport_error
      (χ := Unit) (γ := Unit) (δ := Unit) none "boom" none (fun _ => [])
      [("p1", exChatProvider)] "p1" exReq (by decide) (by decide) (by decide)
      rfl).1,
   (fetch_completion_partial_response_on_transport_error
      (χ := Unit) (γ := Unit) (δ := Unit) none "boom" none (fun _ => [])
      [("p1", exChatProvider)] "p1" exReq (by decide) (by decide) (by decide)
      rfl).2.1⟩

theorem anthropic_thinking_forced_off_witness :
    (applyAnthropicThinkingPolicy {}
      { reasoning := some { type := reasoningTypeSingleWithLevels, level := "high" } }
      (analyzeAnthropicThinkingBehavior
        [exUserMsg "ping", exFnCall "t1", exFnOut "t1"])).thinking = none :=
  anthropic_thinking_forced_off_on_tool_result
    [exUserMsg "ping", exFnCall "t1", exFnOut "t1"]
    { reasoning := some { type := reasoningTypeSingleWithLevels, level := "high" } }
    {} rfl (by decide) (by rfl)


/-! ### C6 — sensitive keys in the scrub output -/

theorem maskedOK_snull : maskedOK SVal.snull = true := by
  rw [maskedOK]
  all_goals exact fun _ hx => SVal.noConfusion hx

theorem maskedOK_sbool (b : Bool) : maskedOK (SVal.sbool b) = true := by
  rw [maskedOK]
  all_goals exact fun _ hx => SVal.noConfusion hx

theorem maskedOK_snum (n : Int) : maskedOK (SVal.snum n) = true := by
  rw [maskedOK]
  all_goals exact fun _ hx => SVal.noConfusion hx

theorem maskedOK_sstr (s : String) : maskedOK (SVal.sstr s) = true := by
  rw [maskedOK]
  all_goals exact fun _ hx => SVal.noConfusion hx

theorem maskedOK_sobj (es : List (String × SVal)) :
    maskedOK (SVal.sobj es) = maskedOKEntries es := by rw [maskedOK]

theorem maskedOK_sarr (xs : List SVal) :
    maskedOK (SVal.sarr xs) = maskedOKList xs := by rw [maskedOK]

theorem maskedOKEntries_nil : maskedOKEntries [] = true := by
  rw [maskedOKEntries]

theorem maskedOKEntries_cons (k : String) (v : SVal)
    (rest : List (String × SVal)) :
    maskedOKEntries ((k, v) :: rest) =
      ((!containsSensitiveKey (goToLower k) || isMaskStr v) && maskedOK v &&
        maskedOKEntries rest) := by
  rw [maskedOKEntries]

theorem maskedOKList_nil : maskedOKList [] = true := by rw [maskedOKList]

theorem maskedOKList_cons (v : SVal) (rest : List SVal) :
    maskedOKList (v :: rest) = (maskedOK v && maskedOKList rest) := by
  rw [maskedOKList]

theorem maskedOK_scrubString (strip : Bool) (ctx : ScrubContext) (s : String) :
    maskedOK (scrubString strip ctx s) = true := by
  unfold scrubString
  dsimp only
  repeat' split
  all_goals exact maskedOK_sstr _

/-- All scrub entry points produce values in which every object binds each
sensitive key to the mask token; proved by strong induction on the fuel,
the components ordered along the call graph. -/
theorem scrub_masked_all (h : GoHeap) (strip : Bool) :
    ∀ f : Nat,
      (∀ ctx seen v, maskedOK (scrubVal h strip f ctx seen v) = true) ∧
      (∀ segType seen l, maskedOKEntries (scrubSegLoop h strip f segType seen l) = true) ∧
      (∀ seen l, maskedOKEntries (scrubContentSegment h strip f seen l) = true) ∧
      (∀ ctx seen l, maskedOKList (scrubMsgSegs h strip f ctx seen l) = true) ∧
      (∀ ctx seen v, maskedOK (scrubMessageContent h strip f ctx seen v) = true) ∧
      (∀ ctx seen v, maskedOK (scrubTopLevelText h strip f ctx seen v) = true) ∧
      (∀ inside seen l, maskedOKEntries (scrubMapLoop h strip f inside seen l) = true) ∧
      (∀ ctx seen l, maskedOKEntries (scrubMapEntries h strip f ctx seen l) = true) ∧
      (∀ ctx seen l, maskedOKList (scrubSliceElems h strip f ctx seen l) = true) := by
  intro f
  induction f using Nat.strong_induction_on with
  | _ f ih =>
  have hval : ∀ ctx seen v, maskedOK (scrubVal h strip f ctx seen v) = true := by
    intro ctx seen v
    cases f with
    | zero => rw [scrubVal]; exact maskedOK_sstr _
    | succ g =>
      obtain ⟨ival, isegl, ics, imsgs, imc, itlt, imapl, imape, islice⟩ :=
        ih g (by omega)
      cases v with
      | vnull => rw [scrubVal]; exact maskedOK_snull
      | vbool b => rw [scrubVal]; exact maskedOK_sbool b
      | vnum n => rw [scrubVal]; exact maskedOK_snum n
      | vstr s => rw [scrubVal]; exact maskedOK_scrubString strip ctx s
      | vref a =>
        rw [scrubVal]
        cases hga : goLookup h a with
        | none => exact maskedOK_snull
        | some node =>
          cases node with
          | mapNode entries =>
            show maskedOK (if a ∈ seen then SVal.sstr cycleToken
              else SVal.sobj (scrubMapEntries h strip g ctx (a :: seen) entries)) = true
            by_cases hmem : a ∈ seen
            · rw [if_pos hmem]; exact maskedOK_sstr _
            · rw [if_neg hmem, maskedOK_sobj]
              exact imape ctx (a :: seen) entries
          | sliceNode elems =>
            show maskedOK (if a ∈ seen then SVal.sstr cycleToken
              else SVal.sarr (scrubSliceElems h strip g ctx (a :: seen) elems)) = true
            by_cases hmem : a ∈ seen
            · rw [if_pos hmem]; exact maskedOK_sstr _
            · rw [if_neg hmem, maskedOK_sarr]
              exact islice ctx (a :: seen) elems
  have hsegl : ∀ segType seen l,
      maskedOKEntries (scrubSegLoop h strip f segType seen l) = true := by
    intro segType seen l
    induction l with
    | nil => rw [scrubSegLoop]; exact maskedOKEntries_nil
    | cons kv rest ihl =>
      obtain ⟨k, v⟩ := kv
      rw [scrubSegLoop]
      rw [maskedOKEntries_cons]
      simp only [Bool.and_eq_true]
      by_cases hs : containsSensitiveKey (goToLower k)
      · rw [if_pos hs]
        refine ⟨⟨?_, maskedOK_sstr _⟩, ihl⟩
        simp [isMaskStr, maskToken]
      · rw [if_neg hs]
        refine ⟨⟨by simp [hs], ?_⟩, ihl⟩
        split
        · exact maskedOK_sstr _
        · split
          · exact maskedOK_sstr _
          · exact hval _ seen v
  have hcs : ∀ seen l, maskedOKEntries (scrubContentSegment h strip f seen l) = true := by
    intro seen l
    rw [scrubContentSegment]
    exact hsegl _ seen l
  have hmsgs : ∀ ctx seen l, maskedOKList (scrubMsgSegs h strip f ctx seen l) = true := by
    intro ctx seen l
    have hcs2 : ∀ seen2 l2,
        maskedOKEntries (scrubContentSegment h strip (f - 2) seen2 l2) = true := by
      rcases Nat.eq_zero_or_pos f with hf | hf
      · subst hf
        intro seen2 l2
        exact hcs seen2 l2
      · intro seen2 l2
        exact ((ih (f - 2) (by omega)).2.2.1) seen2 l2
    have hval1 : ∀ ctx2 seen2 v2,
        maskedOK (scrubVal h strip (f - 1) ctx2 seen2 v2) = true := by
      rcases Nat.eq_zero_or_pos f with hf | hf
      · subst hf
        intro ctx2 seen2 v2
        exact hval ctx2 seen2 v2
      · intro ctx2 seen2 v2
        exact ((ih (f - 1) (by omega)).1) ctx2 seen2 v2
    induction l with
    | nil => rw [scrubMsgSegs]; exact maskedOKList_nil
    | cons seg rest ihl =>
      rw [scrubMsgSegs, maskedOKList_cons]
      simp only [Bool.and_eq_true]
      refine ⟨?_, ihl⟩
      cases seg with
      | vref b =>
        rw [scrubMsgSeg]
        cases hgb : goLookup h b with
        | none => exact hval1 ctx seen _
        | some node =>
          cases node with
          | mapNode segEntries =>
            show maskedOK (SVal.sobj
              (scrubContentSegment h strip (f - 2) seen segEntries)) = true
            rw [maskedOK_sobj]
            exact hcs2 seen segEntries
          | sliceNode elems => exact hval1 ctx seen _
      | vnull =>
        rw [scrubMsgSeg]
        · exact hval1 ctx seen _
        all_goals exact fun _ hx => GoVal.noConfusion hx
      | vbool b2 =>
        rw [scrubMsgSeg]
        · exact hval1 ctx seen _
        all_goals exact fun _ hx => GoVal.noConfusion hx
      | vnum n2 =>
        rw [scrubMsgSeg]
        · exact hval1 ctx seen _
        all_goals exact fun _ hx => GoVal.noConfusion hx
      | vstr s2 =>
        rw [scrubMsgSeg]
        · exact hval1 ctx seen _
        all_goals exact fun _ hx => GoVal.noConfusion hx
  have hmc : ∀ ctx seen v, maskedOK (scrubMessageContent h strip f ctx seen v) = true := by
    intro ctx seen v
    cases v with
    | vstr s =>
      rw [scrubMessageContent]
      cases strip
      · exact hval ctx seen _
      · exact maskedOK_sstr _
    | vref a =>
      rw [scrubMessageContent]
      cases strip
      · exact hval ctx seen _
      · cases hga : goLookup h a with
        | none => exact maskedOK_sstr _
        | some node =>
          cases node with
          | mapNode entries => exact maskedOK_sstr _
          | sliceNode elems =>
            show maskedOK (SVal.sarr (scrubMsgSegs h true f ctx seen elems)) = true
            rw [maskedOK_sarr]
            exact hmsgs ctx seen elems
    | vnull =>
      rw [scrubMessageContent]
      · cases strip
        · exact hval ctx seen _
        · exact maskedOK_sstr _
      all_goals exact fun _ hx => GoVal.noConfusion hx
    | vbool b =>
      rw [scrubMessageContent]
      · cases strip
        · exact hval ctx seen _
        · exact maskedOK_sstr _
      all_goals exact fun _ hx => GoVal.noConfusion hx
    | vnum n =>
      rw [scrubMessageContent]
      · cases strip
        · exact hval ctx seen _
        · exact maskedOK_sstr _
      all_goals exact fun _ hx => GoVal.noConfusion hx
  have htlt : ∀ ctx seen v, maskedOK (scrubTopLevelText h strip f ctx seen v) = true := by
    intro ctx seen v
    rw [scrubTopLevelText]
    exact hval _ seen v
  have hmapl : ∀ inside seen l,
      maskedOKEntries (scrubMapLoop h strip f inside seen l) = true := by
    intro inside seen l
    induction l with
    | nil => rw [scrubMapLoop]; exact maskedOKEntries_nil
    | cons kv rest ihl =>
      obtain ⟨k, v⟩ := kv
      rw [scrubMapLoop]
      rw [maskedOKEntries_cons]
      simp only [Bool.and_eq_true]
      by_cases hs : containsSensitiveKey (goToLower k)
      · rw [if_pos hs]
        refine ⟨⟨?_, maskedOK_sstr _⟩, ihl⟩
        simp [isMaskStr, maskToken]
      · rw [if_neg hs]
        refine ⟨⟨by simp [hs], ?_⟩, ihl⟩
        split
        · exact hmc _ seen v
        · split
          · exact htlt _ seen v
          · exact hval _ seen v
  have hmape : ∀ ctx seen l, maskedOKEntries (scrubMapEntries h strip f ctx seen l) = true := by
    intro ctx seen l
    rw [scrubMapEntries]
    exact hmapl _ seen l
  have hslice : ∀ ctx seen l, maskedOKList (scrubSliceElems h strip f ctx seen l) = true := by
    intro ctx seen l
    induction l with
    | nil => rw [scrubSliceElems]; exact maskedOKList_nil
    | cons v rest ihl =>
      rw [scrubSliceElems, maskedOKList_cons]
      simp only [Bool.and_eq_true]
      exact ⟨hval ctx seen v, ihl⟩
  exact ⟨hval, hsegl, hcs, hmsgs, hmc, htlt, hmapl, hmape, hslice⟩

/-- C6 (amended): in every scrubbed output — with content stripping on or
off — every object at every depth binds each sensitive key (exact set, or
`_key`/`-key` suffix, case-insensitively) to `"***"`.  Entries of input
maps that are swallowed whole by message-content stripping, the cycle
token or the depth token do not appear in the output at all. -/
theorem scrub_output_masks_sensitive_keys (h : GoHeap) (stripContent : Bool)
    (v : GoVal) : maskedOK (ScrubAnyForDebug h stripContent v) = true :=
  (scrub_masked_all h stripContent (maxScrubDepth + 1)).1 {} [] v

/-- C6, counterexample to the frozen wording: with content stripping on,
the sensitive entry `api_key` nested inside a message's `content` map is
not replaced by `"***"` — its whole enclosing map is replaced by the
omitted-content placeholder, so no `"***"` appears anywhere in the
output. -/
theorem scrub_sensitive_entry_swallowed_by_content_stripping :
    goLookup exMsgHeap 1 = some (GoNode.mapNode [("api_key", GoVal.vstr "secret")]) ∧
      containsSensitiveKey "api_key" = true ∧
      ScrubAnyForDebug exMsgHeap true (GoVal.vref 0) =
        SVal.sobj [("role", SVal.sstr "user"),
                   ("content", SVal.sstr ommitedTextContentStr)] := by
  refine ⟨rfl, by decide, ?_⟩
  show scrubVal exMsgHeap true (maxScrubDepth + 1) {} [] (GoVal.vref 0) = _
  rw [scrubVal]
  show SVal.sobj (scrubMapEntries exMsgHeap true maxScrubDepth {} [0]
      [("role", GoVal.vstr "user"), ("content", GoVal.vref 1)]) = _
  rw [scrubMapEntries, scrubMapLoop, scrubMapLoop, scrubMapLoop]
  show SVal.sobj
      [("role", scrubVal exMsgHeap true maxScrubDepth
          { insideMessage := true, parentKey := "role" } [0] (GoVal.vstr "user")),
       ("content", scrubMessageContent exMsgHeap true maxScrubDepth
          { insideMessage := true, parentKey := "content" } [0] (GoVal.vref 1))] = _
  have h1 : scrubVal exMsgHeap true maxScrubDepth
      { insideMessage := true, parentKey := "role" } [0] (GoVal.vstr "user") =
      SVal.sstr "user" := by
    rw [show maxScrubDepth = 4095 + 1 from rfl, scrubVal]
    rfl
  have h2 : scrubMessageContent exMsgHeap true maxScrubDepth
      { insideMessage := true, parentKey := "content" } [0] (GoVal.vref 1) =
      SVal.sstr ommitedTextContentStr := by
    rw [scrubMessageContent]
    rfl
  rw [h1, h2]


/-- Reducing one non-sensitive, non-special `x` entry of the map loop. -/
theorem scrubMapLoop_x_entry (h : GoHeap) (strip : Bool) (f : Nat)
    (seen : List Addr) (w : GoVal) :
    scrubMapLoop h strip f false seen [("x", w)] =
      [("x", scrubVal h strip f { insideMessage := false, parentKey := "x" } seen w)] := by
  cases strip <;> rw [scrubMapLoop, scrubMapLoop] <;> rfl

/-- Reducing one non-sensitive, non-special `self` entry of the map loop. -/
theorem scrubMapLoop_self_entry (h : GoHeap) (strip : Bool) (f : Nat)
    (seen : List Addr) (w : GoVal) :
    scrubMapLoop h strip f false seen [("self", w)] =
      [("self", scrubVal h strip f { insideMessage := false, parentKey := "self" } seen w)] := by
  cases strip <;> rw [scrubMapLoop, scrubMapLoop] <;> rfl

theorem chainHeap_lookup (n i : Nat) (hi : i < n) :
    goLookup (chainHeap n) i = some (GoNode.mapNode [("x", GoVal.vref (i + 1))]) := by
  induction n with
  | zero => omega
  | succ n ih =>
    by_cases hin : i = n
    · subst hin
      show List.lookup i ((i, GoNode.mapNode [("x", GoVal.vref (i + 1))]) :: chainHeap i) = _
      rw [List.lookup]
      rw [show (i == i) = true from beq_self_eq_true i]
    · have h2 := ih (by omega)
      show List.lookup i ((n, GoNode.mapNode [("x", GoVal.vref (n + 1))]) :: chainHeap n) = _
      rw [List.lookup]
      have hbeq : (i == n) = false := by
        simp only [beq_eq_false_iff_ne, ne_eq]
        exact hin
      rw [hbeq]
      exact h2

/-- Scrubbing the head of a linear chain of at least `f` further maps uses
up exactly the fuel: `f` nested singleton objects around the depth
token. -/
theorem chain_scrub (strip : Bool) : ∀ (f n i : Nat) (seen : List Addr)
    (ctx : ScrubContext), i + f ≤ n → (∀ a ∈ seen, a < i) →
    ctx.insideMessage = false →
    scrubVal (chainHeap n) strip f ctx seen (GoVal.vref i) = nestDepth f := by
  intro f
  induction f with
  | zero =>
    intro n i seen ctx _ _ _
    rw [scrubVal]
    rfl
  | succ f ih =>
    intro n i seen ctx hn hseen hctx
    have hlook := chainHeap_lookup n i (by omega)
    rw [scrubVal, hlook]
    show (if i ∈ seen then SVal.sstr cycleToken
      else SVal.sobj (scrubMapEntries (chainHeap n) strip f ctx (i :: seen)
        [("x", GoVal.vref (i + 1))])) = nestDepth (f + 1)
    rw [if_neg (fun hmem => absurd (hseen i hmem) (lt_irrefl i))]
    rw [scrubMapEntries, hctx]
    have hdet : mapDetectsMessage false [("x", GoVal.vref (i + 1))] = false := rfl
    rw [hdet, scrubMapLoop_x_entry]
    have hle : i + 1 + f ≤ n := by omega
    have hlt : ∀ a ∈ i :: seen, a < i + 1 := by
      intro a ha
      rcases List.mem_cons.mp ha with ha | ha
      · omega
      · exact Nat.lt_trans (hseen a ha) (Nat.lt_succ_self i)
    have hrec := ih n (i + 1) (i :: seen)
      { insideMessage := false, parentKey := "x" } hle hlt rfl
    rw [hrec]
    rfl

/-- C7: the scrubber is a total function (its embedding is a terminating
Lean function, so every output is a finite tree), a map or slice reference
re-entered along the current path is replaced by `"<cycle>"` at the
re-entry site (shown generally, and end-to-end on the self-referencing
map), and a value nested past the 4,096-level depth limit is replaced by
`"<max-depth>"`: on a linear chain of more than 4,096 nested maps the
output is exactly 4,097 nested singleton objects around the depth
token. -/
theorem scrub_cycle_reentry_and_depth_limit :
    (∀ (h : GoHeap) (strip : Bool) (f : Nat) (ctx : ScrubContext)
        (seen : List Addr) (a : Addr) (node : GoNode), a ∈ seen →
        goLookup h a = some node →
        scrubVal h strip (f + 1) ctx seen (GoVal.vref a) = SVal.sstr cycleToken) ∧
    (∀ strip : Bool, ScrubAnyForDebug exCycleHeap strip (GoVal.vref 0) =
        SVal.sobj [("self", SVal.sstr cycleToken)]) ∧
    (∀ (strip : Bool) (n : Nat), maxScrubDepth + 1 ≤ n →
        ScrubAnyForDebug (chainHeap n) strip (GoVal.vref 0) =
          nestDepth (maxScrubDepth + 1)) := by
  have hcycle : ∀ (h : GoHeap) (strip : Bool) (f : Nat) (ctx : ScrubContext)
      (seen : List Addr) (a : Addr) (node : GoNode), a ∈ seen →
      goLookup h a = some node →
      scrubVal h strip (f + 1) ctx seen (GoVal.vref a) = SVal.sstr cycleToken := by
    intro h strip f ctx seen a node hmem hlook
    rw [scrubVal, hlook]
    cases node with
    | mapNode entries =>
      show (if a ∈ seen then SVal.sstr cycleToken
        else SVal.sobj (scrubMapEntries h strip f ctx (a :: seen) entries)) = _
      rw [if_pos hmem]
    | sliceNode elems =>
      show (if a ∈ seen then SVal.sstr cycleToken
        else SVal.sarr (scrubSliceElems h strip f ctx (a :: seen) elems)) = _
      rw [if_pos hmem]
  refine ⟨hcycle, ?_, ?_⟩
  · intro strip
    show scrubVal exCycleHeap strip (maxScrubDepth + 1) {} [] (GoVal.vref 0) = _
    have hl : goLookup exCycleHeap 0 =
        some (GoNode.mapNode [("self", GoVal.vref 0)]) := rfl
    rw [scrubVal, hl]
    show (if (0 : Addr) ∈ ([] : List Addr) then SVal.sstr cycleToken
      else SVal.sobj (scrubMapEntries exCycleHeap strip maxScrubDepth {} [0]
        [("self", GoVal.vref 0)])) = _
    rw [if_neg (List.not_mem_nil 0)]
    rw [scrubMapEntries]
    have hdet : mapDetectsMessage (ScrubContext.insideMessage {})
        [("self", GoVal.vref 0)] = false := rfl
    rw [hdet, scrubMapLoop_self_entry]
    have hcyc := hcycle exCycleHeap strip 4095
      { insideMessage := false, parentKey := "self" } [0] 0
      (GoNode.mapNode [("self", GoVal.vref 0)]) (List.mem_singleton.mpr rfl) hl
    rw [show maxScrubDepth = 4095 + 1 from rfl, hcyc]
  · intro strip n hn
    show scrubVal (chainHeap n) strip (maxScrubDepth + 1) {} [] (GoVal.vref 0) = _
    exact chain_scrub strip (maxScrubDepth + 1) n 0 []
      {} (by omega) (fun a ha => absurd ha (List.not_mem_nil a)) rfl

theorem scrub_cycle_reentry_and_depth_limit_witness :
    ((0 : Addr) ∈ [(0 : Addr)] ∧
      goLookup exCycleHeap 0 = some (GoNode.mapNode [("self", GoVal.vref 0)]) ∧
      scrubVal exCycleHeap true 1 {} [0] (GoVal.vref 0) = SVal.sstr cycleToken) ∧
    ScrubAnyForDebug exCycleHeap true (GoVal.vref 0) =
      SVal.sobj [("self", SVal.sstr cycleToken)] ∧
    (maxScrubDepth + 1 ≤ maxScrubDepth + 1 ∧
      ScrubAnyForDebug (chainHeap (maxScrubDepth + 1)) true (GoVal.vref 0) =
        nestDepth (maxScrubDepth + 1)) :=
  ⟨⟨by decide, rfl,
    scrub_cycle_reentry_and_depth_limit.1 exCycleHeap true 0 {} [0] 0
      (GoNode.mapNode [("self", GoVal.vref 0)]) (by decide) rfl⟩,
   scrub_cycle_reentry_and_depth_limit.2.1 true,
   le_refl _,
   scrub_cycle_reentry_and_depth_limit.2.2 true (maxScrubDepth + 1) (le_refl _)⟩

/-! ## Allocation cleanliness of the scrubber -/

theorem allocOK_same (st : AllocSt) : allocOK st [] st :=
  ⟨⟨[], (List.append_nil _).symm⟩, le_refl _,
   fun r hr => absurd hr (List.not_mem_nil r)⟩

theorem allocOK_comp {st st1 st2 : AllocSt} {rs1 rs2 : List Addr}
    (h1 : allocOK st rs1 st1) (h2 : allocOK st1 rs2 st2) :
    allocOK st (rs1 ++ rs2) st2 := by
  obtain ⟨⟨t1, ht1⟩, hn1, hr1⟩ := h1
  obtain ⟨⟨t2, ht2⟩, hn2, hr2⟩ := h2
  refine ⟨⟨t1 ++ t2, by rw [ht2, ht1, List.append_assoc]⟩, le_trans hn1 hn2, ?_⟩
  intro r hr
  rcases List.mem_append.mp hr with hr | hr
  · exact ⟨(hr1 r hr).1, lt_of_lt_of_le (hr1 r hr).2 hn2⟩
  · exact ⟨le_trans hn1 (hr2 r hr).1, (hr2 r hr).2⟩

theorem allocOK_alloc {st st1 : AllocSt} {rs : List Addr} (node : GoNode)
    (h1 : allocOK st rs st1) :
    allocOK st [(allocNode st1 node).1] (allocNode st1 node).2 := by
  obtain ⟨⟨t1, ht1⟩, hn1, _⟩ := h1
  refine ⟨⟨t1 ++ [(st1.next, node)], ?_⟩, le_trans hn1 (Nat.le_succ _), ?_⟩
  · show st1.heap ++ [(st1.next, node)] = st.heap ++ (t1 ++ [(st1.next, node)])
    rw [ht1, List.append_assoc]
  · intro r hr
    have hr2 : r = st1.next := List.mem_singleton.mp hr
    subst hr2
    exact ⟨hn1, Nat.lt_succ_self _⟩

theorem allocOK_loop_cons {st stR : AllocSt} {o : GoVal} {oSt : AllocSt}
    {restEntries : List (String × GoVal)} (k : String)
    (h1 : allocOK st (valRefs o) oSt)
    (h2 : allocOK oSt (entryRefs restEntries) stR) :
    allocOK st (entryRefs ((k, o) :: restEntries)) stR :=
  allocOK_comp h1 h2

theorem allocOK_list_cons {st stR : AllocSt} {o : GoVal} {oSt : AllocSt}
    {restVals : List GoVal}
    (h1 : allocOK st (valRefs o) oSt)
    (h2 : allocOK oSt (listRefs restVals) stR) :
    allocOK st (listRefs (o :: restVals)) stR :=
  allocOK_comp h1 h2

theorem goLookup_append_left {h : GoHeap} {a : Addr} {n : GoNode}
    (t : GoHeap) (hl : goLookup h a = some n) : goLookup (h ++ t) a = some n := by
  induction h with
  | nil => simp [goLookup, List.lookup] at hl
  | cons p rest ih =>
    obtain ⟨k, node⟩ := p
    cases hak : (a == k)
    case false =>
      have hl2 : List.lookup a ((k, node) :: rest) = some n := hl
      rw [List.lookup, hak] at hl2
      show List.lookup a ((k, node) :: (rest ++ t)) = some n
      rw [List.lookup, hak]
      exact ih hl2
    case true =>
      have hl2 : List.lookup a ((k, node) :: rest) = some n := hl
      rw [List.lookup, hak] at hl2
      show List.lookup a ((k, node) :: (rest ++ t)) = some n
      rw [List.lookup, hak]
      exact hl2

theorem goLookup_allocOK {st st2 : AllocSt} {rs : List Addr}
    (h : allocOK st rs st2) {a : Addr} {n : GoNode}
    (hl : goLookup st.heap a = some n) : goLookup st2.heap a = some n := by
  obtain ⟨⟨t, ht⟩, _, _⟩ := h
  rw [ht]
  exact goLookup_append_left t hl

/-- Every scrub function of the allocating model is allocation-clean:
the heap is only appended to, the address counter only grows, and every
reference in the output is freshly allocated. -/
theorem scrubA_alloc_all (strip : Bool) : ∀ f : Nat,
    (∀ ctx seen v st, allocOK st (valRefs (scrubValA strip f ctx seen v st).1)
        (scrubValA strip f ctx seen v st).2) ∧
    (∀ segType seen l st,
        allocOK st (entryRefs (scrubSegLoopA strip f segType seen l st).1)
          (scrubSegLoopA strip f segType seen l st).2) ∧
    (∀ seen l st, allocOK st (entryRefs (scrubContentSegmentA strip f seen l st).1)
        (scrubContentSegmentA strip f seen l st).2) ∧
    (∀ ctx seen seg st, allocOK st (valRefs (scrubMsgSegA strip f ctx seen seg st).1)
        (scrubMsgSegA strip f ctx seen seg st).2) ∧
    (∀ ctx seen l st, allocOK st (listRefs (scrubMsgSegsA strip f ctx seen l st).1)
        (scrubMsgSegsA strip f ctx seen l st).2) ∧
    (∀ ctx seen v st, allocOK st (valRefs (scrubMessageContentA strip f ctx seen v st).1)
        (scrubMessageContentA strip f ctx seen v st).2) ∧
    (∀ ctx seen v st, allocOK st (valRefs (scrubTopLevelTextA strip f ctx seen v st).1)
        (scrubTopLevelTextA strip f ctx seen v st).2) ∧
    (∀ inside seen l st, allocOK st (entryRefs (scrubMapLoopA strip f inside seen l st).1)
        (scrubMapLoopA strip f inside seen l st).2) ∧
    (∀ ctx seen l st, allocOK st (entryRefs (scrubMapEntriesA strip f ctx seen l st).1)
        (scrubMapEntriesA strip f ctx seen l st).2) ∧
    (∀ ctx seen l st, allocOK st (listRefs (scrubSliceElemsA strip f ctx seen l st).1)
        (scrubSliceElemsA strip f ctx seen l st).2) := by
  intro f
  induction f using Nat.strong_induction_on with
  | _ f ih =>
  have hval : ∀ ctx seen v st,
      allocOK st (valRefs (scrubValA strip f ctx seen v st).1)
        (scrubValA strip f ctx seen v st).2 := by
    intro ctx seen v st
    cases f with
    | zero =>
      rw [scrubValA]
      exact allocOK_same st
    | succ g =>
      cases v with
      | vnull => rw [scrubValA]; exact allocOK_same st
      | vbool b => rw [scrubValA]; exact allocOK_same st
      | vnum n => rw [scrubValA]; exact allocOK_same st
      | vstr s => rw [scrubValA]; exact allocOK_same st
      | vref a =>
        rw [scrubValA]
        split
        · split
          · exact allocOK_same st
          · exact allocOK_alloc _
              ((ih g (Nat.lt_succ_self g)).2.2.2.2.2.2.2.2.1 ctx (a :: seen) _ st)
        · split
          · exact allocOK_same st
          · exact allocOK_alloc _
              ((ih g (Nat.lt_succ_self g)).2.2.2.2.2.2.2.2.2 ctx (a :: seen) _ st)
        · exact allocOK_same st
  have hsegl : ∀ segType seen l st,
      allocOK st (entryRefs (scrubSegLoopA strip f segType seen l st).1)
        (scrubSegLoopA strip f segType seen l st).2 := by
    intro segType seen l
    induction l with
    | nil =>
      intro st
      rw [scrubSegLoopA]
      exact allocOK_same st
    | cons kv rest ihl =>
      obtain ⟨k, v⟩ := kv
      intro st
      rw [scrubSegLoopA]
      refine allocOK_loop_cons k ?_ (ihl _)
      split
      · exact allocOK_same st
      · split
        · exact allocOK_same st
        · split
          · exact allocOK_same st
          · exact hval _ seen v st
  have hcs : ∀ seen l st,
      allocOK st (entryRefs (scrubContentSegmentA strip f seen l st).1)
        (scrubContentSegmentA strip f seen l st).2 := by
    intro seen l st
    rw [scrubContentSegmentA]
    exact hsegl _ seen l st
  have hmsgseg : ∀ ctx seen seg st,
      allocOK st (valRefs (scrubMsgSegA strip f ctx seen seg st).1)
        (scrubMsgSegA strip f ctx seen seg st).2 := by
    have hvalm1 : ∀ ctx seen v st,
        allocOK st (valRefs (scrubValA strip (f - 1) ctx seen v st).1)
          (scrubValA strip (f - 1) ctx seen v st).2 := by
      rcases Nat.eq_zero_or_pos f with hf | hf
      · subst hf
        exact hval
      · exact (ih (f - 1) (by omega)).1
    have hcsm2 : ∀ seen l st,
        allocOK st (entryRefs (scrubContentSegmentA strip (f - 2) seen l st).1)
          (scrubContentSegmentA strip (f - 2) seen l st).2 := by
      rcases Nat.eq_zero_or_pos f with hf | hf
      · subst hf
        exact hcs
      · exact (ih (f - 2) (by omega)).2.2.1
    intro ctx seen seg st
    cases seg with
    | vref b =>
      rw [scrubMsgSegA]
      split
      · exact allocOK_alloc _ (hcsm2 seen _ st)
      · exact hvalm1 ctx seen _ st
    | vnull =>
      rw [scrubMsgSegA]
      · exact hvalm1 ctx seen _ st
      all_goals exact fun _ hx => GoVal.noConfusion hx
    | vbool b2 =>
      rw [scrubMsgSegA]
      · exact hvalm1 ctx seen _ st
      all_goals exact fun _ hx => GoVal.noConfusion hx
    | vnum n2 =>
      rw [scrubMsgSegA]
      · exact hvalm1 ctx seen _ st
      all_goals exact fun _ hx => GoVal.noConfusion hx
    | vstr s2 =>
      rw [scrubMsgSegA]
      · exact hvalm1 ctx seen _ st
      all_goals exact fun _ hx => GoVal.noConfusion hx
  have hmsgs : ∀ ctx seen l st,
      allocOK st (listRefs (scrubMsgSegsA strip f ctx seen l st).1)
        (scrubMsgSegsA strip f ctx seen l st).2 := by
    intro ctx seen l
    induction l with
    | nil =>
      intro st
      rw [scrubMsgSegsA]
      exact allocOK_same st
    | cons seg rest ihl =>
      intro st
      rw [scrubMsgSegsA]
      exact allocOK_list_cons (hmsgseg ctx seen seg st) (ihl _)
  have hmc : ∀ ctx seen v st,
      allocOK st (valRefs (scrubMessageContentA strip f ctx seen v st).1)
        (scrubMessageContentA strip f ctx seen v st).2 := by
    intro ctx seen v st
    cases v with
    | vstr s =>
      rw [scrubMessageContentA]
      cases strip
      · exact hval ctx seen _ st
      · exact allocOK_same st
    | vref a =>
      rw [scrubMessageContentA]
      cases strip
      · exact hval ctx seen _ st
      · cases hga : goLookup st.heap a with
        | none => exact allocOK_same st
        | some node =>
          cases node with
          | mapNode entries => exact allocOK_same st
          | sliceNode elems => exact allocOK_alloc _ (hmsgs ctx seen elems st)
    | vnull =>
      rw [scrubMessageContentA]
      · cases strip
        · exact hval ctx seen _ st
        · exact allocOK_same st
      all_goals exact fun _ hx => GoVal.noConfusion hx
    | vbool b =>
      rw [scrubMessageContentA]
      · cases strip
        · exact hval ctx seen _ st
        · exact allocOK_same st
      all_goals exact fun _ hx => GoVal.noConfusion hx
    | vnum n =>
      rw [scrubMessageContentA]
      · cases strip
        · exact hval ctx seen _ st
        · exact allocOK_same st
      all_goals exact fun _ hx => GoVal.noConfusion hx
  have htlt : ∀ ctx seen v st,
      allocOK st (valRefs (scrubTopLevelTextA strip f ctx seen v st).1)
        (scrubTopLevelTextA strip f ctx seen v st).2 := by
    intro ctx seen v st
    rw [scrubTopLevelTextA]
    exact hval _ seen v st
  have hmapl : ∀ inside seen l st,
      allocOK st (entryRefs (scrubMapLoopA strip f inside seen l st).1)
        (scrubMapLoopA strip f inside seen l st).2 := by
    intro inside seen l
    induction l with
    | nil =>
      intro st
      rw [scrubMapLoopA]
      exact allocOK_same st
    | cons kv rest ihl =>
      obtain ⟨k, v⟩ := kv
      intro st
      rw [scrubMapLoopA]
      refine allocOK_loop_cons k ?_ (ihl _)
      split
      · exact allocOK_same st
      · split
        · exact hmc _ seen v st
        · split
          · exact htlt _ seen v st
          · exact hval _ seen v st
  have hmape : ∀ ctx seen l st,
      allocOK st (entryRefs (scrubMapEntriesA strip f ctx seen l st).1)
        (scrubMapEntriesA strip f ctx seen l st).2 := by
    intro ctx seen l st
    rw [scrubMapEntriesA]
    exact hmapl _ seen l st
  have hslice : ∀ ctx seen l st,
      allocOK st (listRefs (scrubSliceElemsA strip f ctx seen l st).1)
        (scrubSliceElemsA strip f ctx seen l st).2 := by
    intro ctx seen l
    induction l with
    | nil =>
      intro st
      rw [scrubSliceElemsA]
      exact allocOK_same st
    | cons v rest ihl =>
      intro st
      rw [scrubSliceElemsA]
      exact allocOK_list_cons (hval ctx seen v st) (ihl _)
  exact ⟨hval, hsegl, hcs, hmsgseg, hmsgs, hmc, htlt, hmapl, hmape, hslice⟩

/-- C10: the scrubber never mutates its input.  In the allocating model
every output map and slice is a fresh `allocNode` (Go `make`) written only
through the output, so scrubbing extends the heap without rebinding any
existing address: every node of the input heap is still found unchanged at
its address afterwards, and every reference the scrub returns points into
the freshly allocated region `[next, next')`. -/
theorem scrub_never_mutates_input (h : GoHeap) (next : Addr) (strip : Bool)
    (v : GoVal) :
    (∀ a node, goLookup h a = some node →
        goLookup (ScrubAnyForDebugA h next strip v).2.heap a = some node) ∧
    next ≤ (ScrubAnyForDebugA h next strip v).2.next ∧
    (∀ r ∈ valRefs (ScrubAnyForDebugA h next strip v).1,
        next ≤ r ∧ r < (ScrubAnyForDebugA h next strip v).2.next) := by
  have hall := (scrubA_alloc_all strip (maxScrubDepth + 1)).1 {} [] v ⟨h, next⟩
  exact ⟨fun a node hl => goLookup_allocOK hall hl, hall.2.1, hall.2.2⟩

theorem scrub_never_mutates_input_witness :
    goLookup exMsgHeap 1 = some (GoNode.mapNode [("api_key", GoVal.vstr "secret")]) ∧
      goLookup (ScrubAnyForDebugA exMsgHeap 2 true (GoVal.vref 0)).2.heap 1 =
        some (GoNode.mapNode [("api_key", GoVal.vstr "secret")]) :=
  ⟨rfl,
   (scrub_never_mutates_input exMsgHeap 2 true (GoVal.vref 0)).1 1
     (GoNode.mapNode [("api_key", GoVal.vstr "secret")]) rfl⟩

end Spec2Proof
